import Mathlib

/-!
# Shallow embedding of the cpp-fireSim core

This file embeds the fire-spread simulation engine, the parameter system and
the moisture stage of the terrain generator of the repository, and settles a
list of claims about them.

The embedding follows the final revision of the code (`src/fireSimulator/`):
* `simulation.h` — `Simulation::GetStepProbability`, `FireSpreadSimulation`
  (constructor, `InitWorldParameters`, `SetProhibitedTiles`, `Initialize`,
  `Update`, `HasEnded`, `Reset`, `GetLastChangedTiles`, the ignition factors);
* `worldClasses.h` — `TypedParameter`, `TypedVectorParameter`,
  `ParameterContainer`, `Tile`, `World::GetNeighborTiles`, `GetTileIndex`;
* `worldGenerator.h` (from the earlier `project/` tree, the only copy) —
  `MoistureMapGenerator` and `WorldGenerator::GenerateWorldFromMaps`.

Machine floats are modelled as exact rationals, C++ `int` as `ℤ`, and the
process-wide random source as an explicit oracle (`ℕ → ℚ`) consumed one draw
per `Random::Range(0.0f, 1.0f)` call.
-/

/- The Batteries implementations of the basic `Rat` operations are marked
irreducible, which blocks `decide`-style evaluation of the embedded
arithmetic on concrete inputs; restore the default reducibility for them. -/
attribute [local semireducible] Rat.mul Rat.inv Rat.add Rat.sub

/-! ## Static terrain data (worldClasses.h) -/

inductive VegetationType
  | Grass
  | Sparse
  | Forest
  | Swamp
deriving DecidableEq, Repr

/-- A terrain tile (worldClasses.h `Tile`): immutable height, moisture and
vegetation.  The grid coordinates are kept outside the record (a tile is
identified by its coordinate pair in the `World` grid). -/
structure Tile where
  height : ℚ
  moisture : ℤ
  vegetation : VegetationType
deriving DecidableEq

/-- The world grid (worldClasses.h `World`): a `width × depth` grid of tiles.
`tile x y` is the content of `grid[x][y]`; generated worlds populate every
cell, so the grid is modelled as a total function. -/
structure World where
  width : ℕ
  depth : ℕ
  tile : ℕ → ℕ → Tile

/-- `World::GetTileIndex`: flattened index `x * depth + y`. -/
def GetTileIndex (w : World) (c : ℕ × ℕ) : ℕ :=
  c.1 * w.depth + c.2

/-- `World::GetNeighborTiles(tile, distance = 1)`: the Chebyshev-radius-1
neighborhood of `c`, bounds-checked, in the source's iteration order
(`i` outer from `-1` to `1`, `j` inner from `-1` to `1`, the center cell
excluded). -/
def GetNeighborTiles (w : World) (c : ℕ × ℕ) : List (ℕ × ℕ) :=
  (List.range 3).flatMap fun i =>
    (List.range 3).filterMap fun j =>
      let nx : ℤ := (c.1 : ℤ) + (i : ℤ) - 1
      let ny : ℤ := (c.2 : ℤ) + (j : ℤ) - 1
      if (¬(nx = (c.1 : ℤ) ∧ ny = (c.2 : ℤ))) ∧
          0 ≤ nx ∧ nx < (w.width : ℤ) ∧ 0 ≤ ny ∧ ny < (w.depth : ℤ) then
        some (nx.toNat, ny.toNat)
      else
        none

/-! ## Binary-search probability inversion (simulation.h `Simulation`) -/

/-- The loop body of `Simulation::GetStepProbability`: `n` remaining
iterations of binary search on the pair `(lowerBound, upperBound)`.  The
C++ computes `calcTotalProbability = p * (1 - pow(1 - p, updateSteps)) / p`
in floating point; here the same expression is evaluated in `ℚ`. -/
def stepProbSearch (totalProbability : ℚ) (updateSteps : ℤ) :
    ℕ → ℚ × ℚ → ℚ × ℚ
  | 0, b => b
  | n + 1, (lowerBound, upperBound) =>
    let p := (lowerBound + upperBound) / 2
    let calcTotalProbability := p * (1 - (1 - p) ^ updateSteps) / p
    if calcTotalProbability > totalProbability then
      stepProbSearch totalProbability updateSteps n (lowerBound, p)
    else
      stepProbSearch totalProbability updateSteps n (p, upperBound)

/-- `Simulation::GetStepProbability(totalProbability, updateSteps)`:
100 iterations of binary search on `[0, 1]`, returning the midpoint of the
final bracket. -/
def GetStepProbability (totalProbability : ℚ) (updateSteps : ℤ) : ℚ :=
  let b := stepProbSearch totalProbability updateSteps 100 (0, 1)
  (b.1 + b.2) / 2

/-! ## Ignition factors (simulation.h `FireSpreadSimulation`) -/

/-- `FireSpreadSimulation::GetVegetationFactor`: base flammability of the
target's vegetation.  The C++ switch covers all four enum values. -/
def GetVegetationFactor (vegetation : VegetationType) (spreadFactor : ℚ) : ℚ :=
  (match vegetation with
    | VegetationType.Grass => (18 : ℚ) / 100
    | VegetationType.Forest => (40 : ℚ) / 100
    | VegetationType.Sparse => (25 : ℚ) / 100
    | VegetationType.Swamp => (22 : ℚ) / 100) * spreadFactor

/-- `FireSpreadSimulation::GetMoistureFactor` (the C++ ignores its
`spreadFactor` argument). -/
def GetMoistureFactor (moisture : ℤ) (spreadFactor : ℚ) : ℚ :=
  if moisture = 100 then 0
  else if moisture > 85 then 1 / 2
  else if moisture > 65 then 7 / 10
  else 88 / 100

/-- Exact value in degrees of `atan2(deltaY, deltaX) * 180 / π` for the
coordinate deltas that occur between Chebyshev-distance-1 grid neighbors:
each delta is in `{-1, 0, 1}`, so the mathematical angle is an exact
multiple of 45 degrees determined by the signs alone. -/
def atan2Deg (deltaY deltaX : ℚ) : ℚ :=
  if deltaX > 0 then (if deltaY > 0 then 45 else if deltaY < 0 then -45 else 0)
  else if deltaX < 0 then (if deltaY > 0 then 135 else if deltaY < 0 then -135 else 180)
  else if deltaY > 0 then 90
  else if deltaY < 0 then -90
  else 0

/-- `FireSpreadSimulation::GetWindFactor`: bearing from source to target,
folded angular difference to the wind direction, speed-scaled boost, capped
at 1.5. -/
def GetWindFactor (windSpeed : ℚ) (windDirection : ℤ) (source target : ℕ × ℕ)
    (spreadFactor : ℚ) : ℚ :=
  let deltaX : ℚ := (target.1 : ℚ) - (source.1 : ℚ)
  let deltaY : ℚ := (target.2 : ℚ) - (source.2 : ℚ)
  let angleRaw := atan2Deg deltaY deltaX
  let angleToTarget := if angleRaw < 0 then angleRaw + 360 else angleRaw
  let directionDifferenceRaw := |(windDirection : ℚ) - angleToTarget|
  let directionDifference :=
    if directionDifferenceRaw > 180 then 360 - directionDifferenceRaw
    else directionDifferenceRaw
  let windEffect : ℚ :=
    if directionDifference ≤ 45 then 1 + windSpeed * (3 / 100)
    else if directionDifference ≤ 90 then 1 + windSpeed * (15 / 1000)
    else 1
  min windEffect (3 / 2) * spreadFactor

/-- `FireSpreadSimulation::GetSlopeFactor`. -/
def GetSlopeFactor (source target : Tile) (spreadFactor : ℚ) : ℚ :=
  if target.height - source.height ≥ 0 then (35 / 100 : ℚ) * spreadFactor
  else (25 / 100 : ℚ) * spreadFactor

/-! ## Simulation state (simulation.h `FireSpreadSimulation`)

The dynamic fire state lives in the world's vector parameters
(`isBurning`, `hasBurned`, `burningFor`, `burnTime`) and in the world's
scalar parameters (`windSpeed`, `windDirection`); together with the
simulation's own fields they form one state record. -/

structure SimState where
  currentTime : ℕ
  burningTiles : List (ℕ × ℕ)
  prohibitedTiles : List (ℕ × ℕ)
  /-- `changesOverTime_[t]`; absent keys are the empty list (as returned by
  `GetLastChangedTiles` on a missing key). -/
  changesOverTime : ℕ → List (ℕ × ℕ)
  isBurning : List Bool
  hasBurned : List Bool
  burningFor : List ℤ
  burnTime : List ℤ
  windSpeed : ℚ
  windDirection : ℤ

/-- `TypedVectorParameter<T>::GetValue(index)`.  All simulation accesses are
in bounds (the vectors have `width * depth` entries and every flattened
index stays below that), so the out-of-range `throw` of the C++ is never
reached; the default is irrelevant. -/
def getI (l : List ℤ) (i : ℕ) : ℤ := l.getD i 0

/-- `TypedVectorParameter<bool>::GetValue(index)`. -/
def getB (l : List Bool) (i : ℕ) : Bool := l.getD i false

/-- `std::max(lo, std::min(hi, v))`, the clamp of
`TypedVectorParameter<int>::SetValue`. -/
def clampI (lo hi v : ℤ) : ℤ := max lo (min hi v)

/-- `TypedVectorParameter<int>::SetValue(index, v)` (in-bounds). -/
def setClampedI (l : List ℤ) (i : ℕ) (lo hi v : ℤ) : List ℤ :=
  l.set i (clampI lo hi v)

/-- `TypedVectorParameter<bool>::SetValue(index, v)`: the clamp range is
`[false, true]`, so `max false (min true v) = v`. -/
def setBool (l : List Bool) (i : ℕ) (v : Bool) : List Bool := l.set i v

/-- `changesOverTime_[t].push_back(c)`. -/
def pushChange (f : ℕ → List (ℕ × ℕ)) (t : ℕ) (c : ℕ × ℕ) :
    ℕ → List (ℕ × ℕ) :=
  fun u => if u = t then f u ++ [c] else f u

/-- `FireSpreadSimulation::CalculateFireSpreadProbability(source, target)`. -/
def CalculateFireSpreadProbability (w : World) (s : SimState)
    (source target : ℕ × ℕ) : ℚ :=
  let vegetationFactor := GetVegetationFactor (w.tile target.1 target.2).vegetation 1
  let moistureFactor := GetMoistureFactor (w.tile target.1 target.2).moisture 1
  let windFactor := GetWindFactor s.windSpeed s.windDirection source target 1
  let slopeFactor := GetSlopeFactor (w.tile source.1 source.2) (w.tile target.1 target.2) 1
  let combined := (vegetationFactor + slopeFactor) / 2
  let adjustedProbability := combined * moistureFactor * windFactor
  GetStepProbability adjustedProbability (getI s.burnTime (GetTileIndex w source))

/-- `FireSpreadSimulation::TryIgniteTile(source, target)` with the random
draw made explicit. -/
def TryIgniteTile (w : World) (s : SimState) (source target : ℕ × ℕ)
    (draw : ℚ) : Bool :=
  decide (draw < CalculateFireSpreadProbability w s source target)

/-- `FireSpreadSimulation::InitWorldParameters`: `burnTime` per vegetation
type.  The C++ presets `burnTime = 5` and the switch covers all four enum
values, so the stored value is the vegetation one. -/
def burnTimeFor : VegetationType → ℤ
  | VegetationType.Grass => 1
  | VegetationType.Sparse => 2
  | VegetationType.Swamp => 3
  | VegetationType.Forest => 4

/-- The `burnTime` vector after `InitWorldParameters`: created with initial
value 5 (clamp range `[0, 5]`), then set per tile.  Both C++ loops run
`i, j < grid.size() = width` (only square worlds are used by the
application, where this covers every tile). -/
def InitBurnTimes (w : World) : List ℤ :=
  ((List.range w.width).flatMap fun i =>
      (List.range w.width).map fun j => (i, j)).foldl
    (fun l ij =>
      setClampedI l (ij.1 * w.depth + ij.2) 0 5
        (burnTimeFor (w.tile ij.1 ij.2).vegetation))
    (List.replicate (w.width * w.depth) 5)

/-- `FireSpreadSimulation::SetProhibitedTiles`: every tile with
`moisture == 100`, in grid iteration order. -/
def SetProhibitedTiles (w : World) : List (ℕ × ℕ) :=
  (List.range w.width).flatMap fun x =>
    (List.range w.depth).filterMap fun y =>
      if (w.tile x y).moisture = 100 then some (x, y) else none

/-- The `FireSpreadSimulation(world)` constructor: `InitWorldParameters`
followed by `SetProhibitedTiles`, starting clock 0 and empty logs. -/
def mkFireSpreadSimulation (w : World) : SimState :=
  { currentTime := 0
    burningTiles := []
    prohibitedTiles := SetProhibitedTiles w
    changesOverTime := fun _ => []
    isBurning := List.replicate (w.width * w.depth) false
    hasBurned := List.replicate (w.width * w.depth) false
    burningFor := List.replicate (w.width * w.depth) 0
    burnTime := InitBurnTimes w
    windSpeed := 5
    windDirection := 0 }

/-- The loop body of `FireSpreadSimulation::Initialize` for one starting
tile: mark it burning, log it at the current step, append it to the burning
list. -/
def InitializeStep (w : World) (s : SimState) (t : ℕ × ℕ) : SimState :=
  { s with
    isBurning := setBool s.isBurning (GetTileIndex w t) true
    changesOverTime := pushChange s.changesOverTime s.currentTime t
    burningTiles := s.burningTiles ++ [t] }

/-- `FireSpreadSimulation::Initialize(startingTiles)`: clock to 0, change
log and burning list cleared, then every starting tile (with no moisture or
any other filtering) is processed by `InitializeStep`.  The
`isBurning`/`hasBurned`/`burningFor` vectors from a previous run are not
cleared. -/
def Initialize (w : World) (s : SimState) (startingTiles : List (ℕ × ℕ)) :
    SimState :=
  startingTiles.foldl (InitializeStep w)
    { s with currentTime := 0, changesOverTime := fun _ => [], burningTiles := [] }

/-- The neighbor loop inside `FireSpreadSimulation::Update` for one burning
source: each neighbor that is neither burning nor burned is tried with the
next random draw (`rng k`); on success it is marked burning, logged, and
appended to `nextBurningTiles`.  The draw counter only advances when
`TryIgniteTile` is actually called (the `&&` short-circuits). -/
def igniteNeighbors (w : World) (rng : ℕ → ℚ) (source : ℕ × ℕ) :
    List (ℕ × ℕ) → SimState × List (ℕ × ℕ) × ℕ → SimState × List (ℕ × ℕ) × ℕ
  | [], acc => acc
  | neighbor :: rest, (s, next, k) =>
    let ni := GetTileIndex w neighbor
    if getB s.isBurning ni || getB s.hasBurned ni then
      igniteNeighbors w rng source rest (s, next, k)
    else if TryIgniteTile w s source neighbor (rng k) then
      igniteNeighbors w rng source rest
        ({ s with
            isBurning := setBool s.isBurning ni true
            changesOverTime := pushChange s.changesOverTime s.currentTime neighbor },
          next ++ [neighbor], k + 1)
    else
      igniteNeighbors w rng source rest (s, next, k + 1)

/-- One iteration of the source loop of `FireSpreadSimulation::Update`:
neighbors first, then the source's own burn-duration bookkeeping (burn out
when the incremented `burningFor` reaches `burnTime`, otherwise store the
increment — clamped to the `[0, 5]` range of the vector parameter — and stay
in `nextBurningTiles`). -/
def UpdateSource (w : World) (rng : ℕ → ℚ)
    (acc : SimState × List (ℕ × ℕ) × ℕ) (source : ℕ × ℕ) :
    SimState × List (ℕ × ℕ) × ℕ :=
  let r := igniteNeighbors w rng source (GetNeighborTiles w source) acc
  let s1 := r.1
  let next1 := r.2.1
  let k1 := r.2.2
  let ti := GetTileIndex w source
  let burningFor := getI s1.burningFor ti + 1
  if burningFor ≥ getI s1.burnTime ti then
    ({ s1 with
        isBurning := setBool s1.isBurning ti false
        hasBurned := setBool s1.hasBurned ti true
        changesOverTime := pushChange s1.changesOverTime s1.currentTime source },
      next1, k1)
  else
    ({ s1 with burningFor := setClampedI s1.burningFor ti 0 5 burningFor },
      next1 ++ [source], k1)

/-- The source loop of `FireSpreadSimulation::Update` over the burning list,
threading the mutated state, the accumulating `nextBurningTiles` and the
draw counter. -/
def UpdateLoop (w : World) (rng : ℕ → ℚ) :
    List (ℕ × ℕ) → SimState × List (ℕ × ℕ) × ℕ → SimState × List (ℕ × ℕ) × ℕ
  | [], acc => acc
  | source :: rest, acc => UpdateLoop w rng rest (UpdateSource w rng acc source)

/-- `FireSpreadSimulation::Update()`: advance the clock, run the source loop
over the current burning list, and replace the burning list with
`nextBurningTiles`. -/
def Update (w : World) (rng : ℕ → ℚ) (s : SimState) : SimState :=
  let s0 := { s with currentTime := s.currentTime + 1 }
  let r := UpdateLoop w rng s0.burningTiles (s0, [], 0)
  { r.1 with burningTiles := r.2.1 }

/-- `FireSpreadSimulation::HasEnded()`. -/
def HasEnded (s : SimState) : Bool := s.burningTiles.isEmpty

/-- `FireSpreadSimulation::Reset()`: clock to 0, change log / burning /
prohibited lists cleared, and `world_.ResetParameters()` restores the
world's scalar parameters (`windSpeed` to 5, `windDirection` to 0).
`ParameterContainer::ResetParameters` iterates `singleParameters_` only, so
the vector parameters (`isBurning`, `hasBurned`, `burningFor`, `burnTime`)
keep their values; the per-tile `ResetParameters()` calls are no-ops because
this revision attaches no parameters to tiles. -/
def Reset (s : SimState) : SimState :=
  { s with
    currentTime := 0
    changesOverTime := fun _ => []
    burningTiles := []
    prohibitedTiles := []
    windSpeed := 5
    windDirection := 0 }

/-- `FireSpreadSimulation::GetLastChangedTiles()`. -/
def GetLastChangedTiles (s : SimState) : List (ℕ × ℕ) :=
  s.changesOverTime s.currentTime

/-- Iterated `Update`, one fresh draw sequence per call (`rngs n` feeds the
`n`-th call). -/
def RunUpdates (w : World) (rngs : ℕ → ℕ → ℚ) : ℕ → SimState → SimState
  | 0, s => s
  | n + 1, s => RunUpdates w (fun i => rngs (i + 1)) n (Update w (rngs 0) s)

/-! ## Parameter system (worldClasses.h) -/

/-- `TypedParameter<T>` (worldClasses.h): named typed slot with an initial
value and an inclusive clamp range. -/
structure TypedParameter (α : Type) where
  initialValue : α
  value : α
  minValue : α
  maxValue : α
deriving DecidableEq

/-- The `TypedParameter(initialValue, minValue, maxValue)` constructor:
`value_` starts at `initialValue` — without clamping. -/
def TypedParameter.mk' (initialValue minValue maxValue : α) : TypedParameter α :=
  ⟨initialValue, initialValue, minValue, maxValue⟩

/-- `TypedParameter<T>::SetValue`: `value_ = max(min_, min(max_, value))`. -/
def TypedParameter.SetValue [LinearOrder α] (p : TypedParameter α) (value : α) :
    TypedParameter α :=
  { p with value := max p.minValue (min p.maxValue value) }

/-- `TypedParameter<T>::Reset`: `value_ = initialValue_`. -/
def TypedParameter.Reset (p : TypedParameter α) : TypedParameter α :=
  { p with value := p.initialValue }

/-- A sequence of `SetValue` calls. -/
def TypedParameter.runSets [LinearOrder α] (p : TypedParameter α) (vs : List α) :
    TypedParameter α :=
  vs.foldl TypedParameter.SetValue p

/-- `TypedVectorParameter<T>` (worldClasses.h): a per-cell vector of values
of one type with a shared initial value and clamp range. -/
structure TypedVectorParameter (α : Type) where
  values : List α
  initialValue : α
  minValue : α
  maxValue : α
deriving DecidableEq

/-- The `TypedVectorParameter(size, initialValue, minValue, maxValue)`
constructor. -/
def TypedVectorParameter.mk' (size : ℕ) (initialValue minValue maxValue : α) :
    TypedVectorParameter α :=
  ⟨List.replicate size initialValue, initialValue, minValue, maxValue⟩

/-- `TypedVectorParameter<T>::SetValue(index, value)`: clamp then store.
An out-of-range index throws in the C++ and stores nothing; `List.set` is
the in-bounds behaviour and leaves the vector unchanged out of bounds. -/
def TypedVectorParameter.SetValue [LinearOrder α] (p : TypedVectorParameter α)
    (index : ℕ) (value : α) : TypedVectorParameter α :=
  { p with values := p.values.set index (max p.minValue (min p.maxValue value)) }

/-- `TypedVectorParameter<T>::Reset`: `std::fill` with `initialValue_`. -/
def TypedVectorParameter.Reset (p : TypedVectorParameter α) :
    TypedVectorParameter α :=
  { p with values := p.values.map fun _ => p.initialValue }

/-- A sequence of `SetValue(index, value)` calls. -/
def TypedVectorParameter.runSets [LinearOrder α] (p : TypedVectorParameter α)
    (ops : List (ℕ × α)) : TypedVectorParameter α :=
  ops.foldl (fun q op => q.SetValue op.1 op.2) p

/-- The element types instantiated for parameters in the repository. -/
inductive PType
  | tbool
  | tint
  | tfloat
deriving DecidableEq

@[reducible] def PType.interp : PType → Type
  | PType.tbool => Bool
  | PType.tint => ℤ
  | PType.tfloat => ℚ

/-- The dynamic object behind a `shared_ptr<Parameter>` entry of
`singleParameters_`: its runtime type tag together with the data. -/
structure DynParameter where
  ptype : PType
  param : TypedParameter ptype.interp

/-- The dynamic object behind a `shared_ptr<void>` entry of
`vectorParameters_`. -/
structure DynVectorParameter where
  ptype : PType
  param : TypedVectorParameter ptype.interp

/-- `ParameterContainer` (worldClasses.h): string-keyed maps of scalar and
vector parameters (keys unique, as in `std::unordered_map`). -/
structure ParameterContainer where
  singleParameters : List (String × DynParameter)
  vectorParameters : List (String × DynVectorParameter)

/-- `ParameterContainer::GetParameter<T>`: map lookup followed by
`dynamic_pointer_cast<TypedParameter<T>>`, which yields null exactly when
the entry is missing or the stored runtime type differs from `T`. -/
def ParameterContainer.GetParameter (t : PType) (c : ParameterContainer)
    (name : String) : Option (TypedParameter t.interp) :=
  match c.singleParameters.lookup name with
  | none => none
  | some d => if h : d.ptype = t then some (h ▸ d.param) else none

/-- `ParameterContainer::GetVectorParameter<T>`: map lookup followed by
`static_pointer_cast<TypedVectorParameter<T>>`.  The static cast does not
inspect the stored runtime type — the requested type `t` is ignored — so
the returned handle is null exactly when the name is absent; otherwise it
aliases the stored object reinterpreted at `T`.  The model returns the
stored dynamic object: its presence/absence is the observable behaviour. -/
def ParameterContainer.GetVectorParameter (t : PType) (c : ParameterContainer)
    (name : String) : Option DynVectorParameter :=
  c.vectorParameters.lookup name

/-! ## Moisture generation (project/fireSimulator/worldGenerator.h) -/

/-- `Map<int>` (worldGenerator.h): dense 2D grid; out-of-bounds reads
return the default `int() = 0`, out-of-bounds writes are no-ops. -/
structure MapInt where
  width : ℕ
  depth : ℕ
  data : ℕ → ℕ → ℤ

def MapInt.GetData (m : MapInt) (x y : ℕ) : ℤ :=
  if x < m.width ∧ y < m.depth then m.data x y else 0

def MapInt.SetData (m : MapInt) (x y : ℕ) (v : ℤ) : MapInt :=
  if x < m.width ∧ y < m.depth then
    { m with data := fun a b => if a = x ∧ b = y then v else m.data a b }
  else m

/-- `MoistureMapGenerator::SpreadMoisture(x, y, moistureMap)` with
`moistureRadius = 2` and `maxMoisture = 100`: additively diffuse
linearly-decaying influence (`100 - distance * (100 / 2)`, integer
division) into the Manhattan-distance-2 neighborhood, clamped to 100. -/
def SpreadMoisture (x y : ℕ) (m : MapInt) : MapInt :=
  ((List.range 5).flatMap fun di => (List.range 5).map fun dj => (di, dj)).foldl
    (fun acc d =>
      let dx : ℤ := (d.1 : ℤ) - 2
      let dy : ℤ := (d.2 : ℤ) - 2
      let nx : ℤ := (x : ℤ) + dx
      let ny : ℤ := (y : ℤ) + dy
      if 0 ≤ nx ∧ nx < (acc.width : ℤ) ∧ 0 ≤ ny ∧ ny < (acc.depth : ℤ) then
        let distance := |dx| + |dy|
        if distance ≤ 2 then
          let influence := 100 - distance * (100 / 2)
          acc.SetData nx.toNat ny.toNat
            (min (acc.GetData nx.toNat ny.toNat + influence) 100)
        else acc
      else acc)
    m

/-- `MoistureMapGenerator::Generate()`: water cells get moisture 100 plus
diffusion; the rest sample `perlin`, remapped from `[-1, 1]` to `[0, 100]`,
clamped, and truncated to `int` (truncation of a non-negative value is the
floor).  `perlin` is an oracle argument: `perlin.h` is not part of the
sources, and every result below holds for an arbitrary noise function. -/
def MoistureGenerate (width depth : ℕ) (lakeMap riverMap : ℕ → ℕ → Bool)
    (noise : ℚ → ℚ → ℚ) (offsetX offsetY : ℚ) : MapInt :=
  ((List.range width).flatMap fun x => (List.range depth).map fun y => (x, y)).foldl
    (fun m c =>
      if lakeMap c.1 c.2 || riverMap c.1 c.2 then
        SpreadMoisture c.1 c.2 (m.SetData c.1 c.2 100)
      else
        let noiseValue := noise (((c.1 : ℚ) + offsetX) / 10) (((c.2 : ℚ) + offsetY) / 10)
        let normalizedNoise := (noiseValue + 1) / 2
        let scaledNoise := normalizedNoise * 100
        let clampedNoise := max 0 (min scaledNoise 100)
        m.SetData c.1 c.2 ⌊clampedNoise⌋)
    { width := width, depth := depth, data := fun _ _ => 0 }

/-- `WorldGenerator::GenerateWorldFromMaps`: assemble tiles from the maps;
any cell with moisture 100 is forced to the low height `0.01`. -/
def GenerateWorldFromMaps (width depth : ℕ) (heightMap : ℕ → ℕ → ℚ)
    (moistureMap : MapInt) (vegetationMap : ℕ → ℕ → VegetationType) : World :=
  { width := width
    depth := depth
    tile := fun x y =>
      let moisture := moistureMap.GetData x y
      { height := if moisture = 100 then 1 / 100 else heightMap x y
        moisture := moisture
        vegetation := vegetationMap x y } }

/-! ## Concrete fixtures used by counterexamples and witnesses -/

/-- A 1×2 world: a dry grass tile at `(0,0)` and a water tile
(moisture 100) at `(0,1)`. -/
def exWorld : World :=
  { width := 1
    depth := 2
    tile := fun _ y =>
      if y = 1 then { height := 0, moisture := 100, vegetation := VegetationType.Grass }
      else { height := 0, moisture := 0, vegetation := VegetationType.Grass } }

/-- A 1×1 world holding a single dry grass tile. -/
def exWorld1 : World :=
  { width := 1
    depth := 1
    tile := fun _ _ => { height := 0, moisture := 0, vegetation := VegetationType.Grass } }

/-! ## Claim C7 -/

set_option maxRecDepth 40000 in
/-- Claim C7 (code divergence): `GetStepProbability` has no special case for
zero or negative `updateSteps`.  With `updateSteps = 0` the computed
`calcTotalProbability` is `p * (1 - (1-p)^0) / p = 0`, so the binary search
drives the lower bound up to `1 - 2⁻¹⁰⁰` and the function returns
`1 - 2⁻¹⁰¹` — approximately 1, not the 0 the claim requires; the same
happens for negative step counts. -/
theorem c7_no_zero_step_special_case :
    GetStepProbability (1 / 2) 0 = 1 - 1 / 2 ^ 101 ∧
    GetStepProbability (1 / 2) (-1) = 1 - 1 / 2 ^ 101 ∧
    GetStepProbability (1 / 2) 0 ≠ 0 := by
  refine ⟨by decide, by decide, by decide⟩

/-! ## Claim C3 -/

/-- Claim C3 counterexample: passing the water tile `(0,1)` of `exWorld`
(moisture 100) to `Initialize` is not ignored — the tile is marked burning,
appended to the burning set, and logged in the step-0 change set. -/
theorem c3_counterexample :
    (exWorld.tile 0 1).moisture = 100 ∧
    (0, 1) ∈ (Initialize exWorld (mkFireSpreadSimulation exWorld) [(0, 1)]).burningTiles ∧
    getB (Initialize exWorld (mkFireSpreadSimulation exWorld) [(0, 1)]).isBurning
      (GetTileIndex exWorld (0, 1)) = true ∧
    (0, 1) ∈ GetLastChangedTiles (Initialize exWorld (mkFireSpreadSimulation exWorld) [(0, 1)]) := by
  refine ⟨by decide, by decide, by decide, by decide⟩

theorem getB_lt_length_of_true {l : List Bool} {j : ℕ} (h : getB l j = true) :
    j < l.length := by
  by_contra hge
  rw [getB, List.getD_eq_getElem?_getD, List.getElem?_eq_none (Nat.le_of_not_lt hge)] at h
  exact Bool.false_ne_true h

theorem getB_set_true {l : List Bool} {j : ℕ} (i : ℕ) (h : getB l j = true) :
    getB (l.set i true) j = true := by
  by_cases hij : i = j
  · subst hij
    have hlt := getB_lt_length_of_true h
    simp [getB, List.getD_eq_getElem?_getD, List.getElem?_set_self hlt]
  · simpa [getB, List.getD_eq_getElem?_getD, List.getElem?_set_ne hij] using h

theorem getB_set_self {l : List Bool} {i : ℕ} (v : Bool) (hlt : i < l.length) :
    getB (l.set i v) i = v := by
  simp [getB, List.getD_eq_getElem?_getD, List.getElem?_set_self hlt]

theorem foldl_InitializeStep_currentTime (w : World) :
    ∀ (l : List (ℕ × ℕ)) (s : SimState),
      (l.foldl (InitializeStep w) s).currentTime = s.currentTime
  | [], _ => rfl
  | t :: ts, s => foldl_InitializeStep_currentTime w ts (InitializeStep w s t)

theorem foldl_InitializeStep_mem_burning (w : World) :
    ∀ (l : List (ℕ × ℕ)) (s : SimState) (t : ℕ × ℕ), t ∈ s.burningTiles →
      t ∈ (l.foldl (InitializeStep w) s).burningTiles
  | [], _, _, h => h
  | u :: us, s, t, h =>
    foldl_InitializeStep_mem_burning w us (InitializeStep w s u) t
      (List.mem_append_left _ h)

theorem foldl_InitializeStep_mem_changes (w : World) :
    ∀ (l : List (ℕ × ℕ)) (s : SimState) (c : ℕ × ℕ) (u : ℕ),
      c ∈ s.changesOverTime u →
      c ∈ (l.foldl (InitializeStep w) s).changesOverTime u
  | [], _, _, _, h => h
  | v :: vs, s, c, u, h =>
    foldl_InitializeStep_mem_changes w vs (InitializeStep w s v) c u (by
      show c ∈ pushChange s.changesOverTime s.currentTime v u
      unfold pushChange
      by_cases hu : u = s.currentTime
      · rw [if_pos hu]
        exact List.mem_append_left _ h
      · rw [if_neg hu]
        exact h)

theorem foldl_InitializeStep_isBurning (w : World) :
    ∀ (l : List (ℕ × ℕ)) (s : SimState) (i : ℕ), getB s.isBurning i = true →
      getB (l.foldl (InitializeStep w) s).isBurning i = true
  | [], _, _, h => h
  | u :: us, s, i, h =>
    foldl_InitializeStep_isBurning w us (InitializeStep w s u) i
      (getB_set_true _ h)

theorem Initialize_marks_all (w : World) :
    ∀ (l : List (ℕ × ℕ)) (s : SimState) (t : ℕ × ℕ), t ∈ l →
      t ∈ (l.foldl (InitializeStep w) s).burningTiles ∧
      t ∈ (l.foldl (InitializeStep w) s).changesOverTime s.currentTime ∧
      (GetTileIndex w t < s.isBurning.length →
        getB (l.foldl (InitializeStep w) s).isBurning (GetTileIndex w t) = true) := by
  intro l
  induction l with
  | nil => intro s t ht; cases ht
  | cons u us ih =>
    intro s t ht
    rcases List.mem_cons.mp ht with rfl | hmem
    · refine ⟨foldl_InitializeStep_mem_burning w us _ t ?_,
        foldl_InitializeStep_mem_changes w us _ t s.currentTime ?_,
        fun hlen => foldl_InitializeStep_isBurning w us _ _ ?_⟩
      · exact List.mem_append_right _ (List.mem_singleton.mpr rfl)
      · show t ∈ pushChange s.changesOverTime s.currentTime t s.currentTime
        unfold pushChange
        simp
      · exact getB_set_self true hlen
    · have := ih (InitializeStep w s u) t hmem
      refine ⟨this.1, this.2.1, fun hlen => this.2.2 ?_⟩
      show GetTileIndex w t < (setBool s.isBurning (GetTileIndex w u) true).length
      simpa [setBool] using hlen

/-- Claim C3 amended: `Initialize` marks every starting tile burning,
regardless of moisture — a moisture-100 tile in `startingTiles` is treated
exactly like any other tile: marked burning, appended to the burning set,
and logged in the step-0 change set.  (Water tiles are kept out of the
ignition set only by the UI consulting `GetProhibitedTiles`.)  The earlier
`project/` revision behaves the same: its only guard is that the tile has an
`isBurning` parameter attached, which `InitWorldParameters` attaches to
every tile, water included. -/
theorem c3_initialize_marks_every_starting_tile (w : World) (s : SimState)
    (startingTiles : List (ℕ × ℕ)) (t : ℕ × ℕ) (ht : t ∈ startingTiles)
    (hlen : GetTileIndex w t < s.isBurning.length) :
    t ∈ (Initialize w s startingTiles).burningTiles ∧
    getB (Initialize w s startingTiles).isBurning (GetTileIndex w t) = true ∧
    t ∈ GetLastChangedTiles (Initialize w s startingTiles) := by
  have h := Initialize_marks_all w startingTiles
    { s with currentTime := 0, changesOverTime := fun _ => [], burningTiles := [] } t ht
  refine ⟨h.1, h.2.2 hlen, ?_⟩
  have hct := foldl_InitializeStep_currentTime w startingTiles
    { s with currentTime := 0, changesOverTime := fun _ => [], burningTiles := [] }
  show t ∈ (Initialize w s startingTiles).changesOverTime
    (Initialize w s startingTiles).currentTime
  unfold Initialize at hct ⊢
  rw [hct]
  exact h.2.1

/-- Witness for the amended C3 theorem at a concrete input: the water tile
`(0,1)` of `exWorld` passed to `Initialize`. -/
theorem c3_initialize_marks_every_starting_tile_witness :
    ((0, 1) ∈ [((0 : ℕ), (1 : ℕ))] ∧
      GetTileIndex exWorld (0, 1) < (mkFireSpreadSimulation exWorld).isBurning.length) ∧
    ((0, 1) ∈ (Initialize exWorld (mkFireSpreadSimulation exWorld) [(0, 1)]).burningTiles ∧
      getB (Initialize exWorld (mkFireSpreadSimulation exWorld) [(0, 1)]).isBurning
        (GetTileIndex exWorld (0, 1)) = true ∧
      (0, 1) ∈ GetLastChangedTiles (Initialize exWorld (mkFireSpreadSimulation exWorld) [(0, 1)])) :=
  ⟨⟨by decide, by decide⟩,
    c3_initialize_marks_every_starting_tile exWorld (mkFireSpreadSimulation exWorld)
      [(0, 1)] (0, 1) (by decide) (by decide)⟩

/-! ## Claim C4 -/

/-- Claim C4 (code divergence): after igniting and burning out the single
tile of `exWorld1`, `Reset()` restores the clock, the logs and the wind
parameters, but the tile's `hasBurned` flag is still `true`:
`ParameterContainer::ResetParameters` iterates only `singleParameters_`, the
fire state lives in the world's vector parameters, and the per-tile
`ResetParameters` calls find no parameters in this revision.  The claim
requires `hasBurned = false` after `Reset`. -/
theorem c4_reset_keeps_fire_state :
    (Reset (Update exWorld1 (fun _ => 1)
        (Initialize exWorld1 (mkFireSpreadSimulation exWorld1) [(0, 0)]))).currentTime = 0 ∧
    (Reset (Update exWorld1 (fun _ => 1)
        (Initialize exWorld1 (mkFireSpreadSimulation exWorld1) [(0, 0)]))).burningTiles = [] ∧
    (Reset (Update exWorld1 (fun _ => 1)
        (Initialize exWorld1 (mkFireSpreadSimulation exWorld1) [(0, 0)]))).windSpeed = 5 ∧
    getB (Reset (Update exWorld1 (fun _ => 1)
        (Initialize exWorld1 (mkFireSpreadSimulation exWorld1) [(0, 0)]))).hasBurned
      (GetTileIndex exWorld1 (0, 0)) = true := by
  refine ⟨rfl, rfl, rfl, by decide⟩

/-! ## Claim C10 -/

theorem TypedParameter_runSets_fields [LinearOrder α] :
    ∀ (vs : List α) (p : TypedParameter α),
      (p.runSets vs).initialValue = p.initialValue ∧
      (p.runSets vs).minValue = p.minValue ∧
      (p.runSets vs).maxValue = p.maxValue
  | [], _ => ⟨rfl, rfl, rfl⟩
  | v :: vs, p => TypedParameter_runSets_fields vs (p.SetValue v)

theorem TypedParameter_runSets_value_bounds [LinearOrder α] :
    ∀ (vs : List α) (p : TypedParameter α), p.minValue ≤ p.maxValue →
      p.minValue ≤ p.value → p.value ≤ p.maxValue →
      p.minValue ≤ (p.runSets vs).value ∧ (p.runSets vs).value ≤ p.maxValue
  | [], _, _, hlo, hhi => ⟨hlo, hhi⟩
  | v :: vs, p, hrange, _, _ =>
    TypedParameter_runSets_value_bounds vs (p.SetValue v) hrange
      (le_max_left _ _) (max_le hrange (min_le_left _ _))

theorem TypedVectorParameter_runSets_fields [LinearOrder α] :
    ∀ (ops : List (ℕ × α)) (p : TypedVectorParameter α),
      (p.runSets ops).initialValue = p.initialValue ∧
      (p.runSets ops).values.length = p.values.length
  | [], _ => ⟨rfl, rfl⟩
  | op :: ops, p => by
    have h := TypedVectorParameter_runSets_fields ops (p.SetValue op.1 op.2)
    refine ⟨h.1, h.2.trans ?_⟩
    exact List.length_set _ _ _

theorem TypedVectorParameter_runSets_values_bounds [LinearOrder α] :
    ∀ (ops : List (ℕ × α)) (p : TypedVectorParameter α), p.minValue ≤ p.maxValue →
      (∀ v ∈ p.values, p.minValue ≤ v ∧ v ≤ p.maxValue) →
      ∀ v ∈ (p.runSets ops).values, p.minValue ≤ v ∧ v ≤ p.maxValue
  | [], _, _, hv => hv
  | op :: ops, p, hrange, hv =>
    TypedVectorParameter_runSets_values_bounds ops (p.SetValue op.1 op.2) hrange
      (fun v hmem => by
        rcases List.mem_or_eq_of_mem_set hmem with h | rfl
        · exact hv v h
        · exact ⟨le_max_left _ _, max_le hrange (min_le_left _ _)⟩)

/-- Claim C10 counterexample: the `TypedParameter` constructor stores the
initial value without clamping, so a parameter constructed with initial
value 10 and range `[0, 5]` holds a stored value outside `[min, max]`
after the empty sequence of `SetValue` calls. -/
theorem c10_counterexample :
    ((TypedParameter.mk' (10 : ℤ) 0 5).runSets []).value = 10 ∧
    ¬ ((TypedParameter.mk' (10 : ℤ) 0 5).runSets []).value ≤
        ((TypedParameter.mk' (10 : ℤ) 0 5).runSets []).maxValue := by
  refine ⟨rfl, by decide⟩

/-- Claim C10 amended: provided the construction-time initial value lies
inside `[min, max]`, the stored value of a `TypedParameter` never leaves
`[min, max]` under any sequence of `SetValue` calls (`SetValue` clamps its
argument), and likewise every entry of a `TypedVectorParameter`; `Reset`
restores the exact construction-time initial value regardless of prior
mutations (for the vector parameter, every entry). -/
theorem c10_clamp_and_reset_amended {α : Type} [LinearOrder α]
    (initialValue minValue maxValue : α) (size : ℕ)
    (h1 : minValue ≤ initialValue) (h2 : initialValue ≤ maxValue)
    (vs : List α) (ops : List (ℕ × α)) :
    (minValue ≤ ((TypedParameter.mk' initialValue minValue maxValue).runSets vs).value ∧
      ((TypedParameter.mk' initialValue minValue maxValue).runSets vs).value ≤ maxValue) ∧
    ((TypedParameter.mk' initialValue minValue maxValue).runSets vs).Reset.value = initialValue ∧
    (∀ v ∈ ((TypedVectorParameter.mk' size initialValue minValue maxValue).runSets ops).values,
      minValue ≤ v ∧ v ≤ maxValue) ∧
    ((TypedVectorParameter.mk' size initialValue minValue maxValue).runSets ops).Reset.values =
      List.replicate size initialValue := by
  refine ⟨?_, ?_, ?_, ?_⟩
  · exact TypedParameter_runSets_value_bounds vs
      (TypedParameter.mk' initialValue minValue maxValue) (h1.trans h2) h1 h2
  · show ((TypedParameter.mk' initialValue minValue maxValue).runSets vs).initialValue = _
    exact (TypedParameter_runSets_fields vs _).1
  · exact TypedVectorParameter_runSets_values_bounds ops
      (TypedVectorParameter.mk' size initialValue minValue maxValue) (h1.trans h2)
      (fun v hv => by
        rcases List.eq_of_mem_replicate hv with rfl
        exact ⟨h1, h2⟩)
  · have hfields := TypedVectorParameter_runSets_fields ops
      (TypedVectorParameter.mk' size initialValue minValue maxValue)
    show (TypedVectorParameter.Reset _).values = _
    unfold TypedVectorParameter.Reset
    dsimp only
    rw [List.map_const']
    rw [hfields.1, hfields.2]
    simp [TypedVectorParameter.mk']

/-- Witness for the amended C10 theorem at a concrete input. -/
theorem c10_clamp_and_reset_amended_witness :
    ((0 : ℤ) ≤ 3 ∧ (3 : ℤ) ≤ 5) ∧
    (((0 : ℤ) ≤ ((TypedParameter.mk' (3 : ℤ) 0 5).runSets [7, -2]).value ∧
        ((TypedParameter.mk' (3 : ℤ) 0 5).runSets [7, -2]).value ≤ 5) ∧
      ((TypedParameter.mk' (3 : ℤ) 0 5).runSets [7, -2]).Reset.value = 3 ∧
      (∀ v ∈ ((TypedVectorParameter.mk' 2 (3 : ℤ) 0 5).runSets [(0, 9), (1, -4)]).values,
        (0 : ℤ) ≤ v ∧ v ≤ 5) ∧
      ((TypedVectorParameter.mk' 2 (3 : ℤ) 0 5).runSets [(0, 9), (1, -4)]).Reset.values =
        List.replicate 2 (3 : ℤ)) :=
  ⟨⟨by decide, by decide⟩,
    c10_clamp_and_reset_amended (3 : ℤ) 0 5 2 (by decide) (by decide) [7, -2] [(0, 9), (1, -4)]⟩

/-! ## Claim C8 -/

/-- Claim C8 counterexample: `GetVectorParameter<T>` uses
`static_pointer_cast`, which never nulls a found entry — requesting the
stored `int`-vector parameter `"a"` at type `bool` returns a present
(non-null) handle, not the absent result the claim requires for a
type-mismatched lookup. -/
theorem c8_counterexample :
    (ParameterContainer.GetVectorParameter PType.tbool
        ⟨[], [("a", ⟨PType.tint, TypedVectorParameter.mk' 1 (0 : ℤ) 0 5⟩)]⟩ "a").isSome = true ∧
    ((ParameterContainer.GetVectorParameter PType.tbool
        ⟨[], [("a", ⟨PType.tint, TypedVectorParameter.mk' 1 (0 : ℤ) 0 5⟩)]⟩ "a").map
      DynVectorParameter.ptype) = some PType.tint := by
  refine ⟨rfl, rfl⟩

/-- Claim C8 amended: `GetParameter<T>` indeed returns an absent result both
when the name is missing and when the stored parameter has a different
runtime type, and the two cases are indistinguishable; but
`GetVectorParameter<T>` returns an absent result only when the name is
missing — a found entry is returned (reinterpreted by an unchecked
`static_pointer_cast`) no matter which element type is requested. -/
theorem c8_lookup_absence_amended (t : PType) (c : ParameterContainer) (name : String) :
    (ParameterContainer.GetParameter t c name = none ↔
      ∀ d, c.singleParameters.lookup name = some d → d.ptype ≠ t) ∧
    (ParameterContainer.GetVectorParameter t c name = none ↔
      c.vectorParameters.lookup name = none) := by
  constructor
  · unfold ParameterContainer.GetParameter
    cases h : c.singleParameters.lookup name with
    | none => simp
    | some d =>
      show (if h : d.ptype = t then some (h ▸ d.param) else none) = none ↔ _
      by_cases hd : d.ptype = t
      · rw [dif_pos hd]
        constructor
        · intro hnone
          exact (Option.some_ne_none _ hnone).elim
        · intro hall
          exact absurd hd (hall d rfl)
      · rw [dif_neg hd]
        simp only [true_iff]
        intro d' hd'
        cases hd'
        exact hd
  · unfold ParameterContainer.GetVectorParameter
    exact Iff.rfl

/-! ## Claim C1 -/

/-- Invariant of the binary search in `GetStepProbability`, for the target
function `f p = 1 - (1 - p) ^ n`: the bracket is ordered inside `[0, 1]`,
`f` at the lower bound is at most the target, and either `f` at the upper
bound exceeds the target or the upper bound is still the initial 1. -/
structure SearchInv (total : ℚ) (n : ℕ) (l u : ℚ) : Prop where
  l_nonneg : 0 ≤ l
  lt : l < u
  u_le_one : u ≤ 1
  f_l_le : 1 - (1 - l) ^ n ≤ total
  f_u_gt : total < 1 - (1 - u) ^ n ∨ u = 1

theorem pow_gap_le (n : ℕ) : ∀ a b : ℚ, 0 ≤ b → b ≤ a → a ≤ 1 →
    a ^ n - b ^ n ≤ n * (a - b) := by
  induction n with
  | zero => intro a b _ _ _; simp
  | succ n ih =>
    intro a b hb hba ha1
    have hpow_le : b ^ n ≤ a ^ n := pow_le_pow_left₀ hb hba n
    have hbn1 : b ^ n ≤ 1 := pow_le_one₀ hb (hba.trans ha1)
    have ihab := ih a b hb hba ha1
    have h1 : 0 ≤ (1 - a) * (a ^ n - b ^ n) :=
      mul_nonneg (by linarith) (by linarith)
    have h2 : 0 ≤ (1 - b ^ n) * (a - b) :=
      mul_nonneg (by linarith) (by linarith)
    rw [pow_succ, pow_succ]
    push_cast
    nlinarith [ihab, h1, h2]

theorem stepProbSearch_inv (total : ℚ) (steps : ℤ) (n : ℕ) (hn : (n : ℤ) = steps) :
    ∀ (k : ℕ) (l u : ℚ), SearchInv total n l u →
      SearchInv total n (stepProbSearch total steps k (l, u)).1
        (stepProbSearch total steps k (l, u)).2 ∧
      (stepProbSearch total steps k (l, u)).2 -
        (stepProbSearch total steps k (l, u)).1 = (u - l) / 2 ^ k := by
  intro k
  induction k with
  | zero =>
    intro l u hinv
    exact ⟨hinv, by simp [stepProbSearch]⟩
  | succ k ih =>
    intro l u hinv
    have hp0 : (0 : ℚ) < (l + u) / 2 := by
      have := hinv.l_nonneg
      have := hinv.lt
      linarith
    have hcalc : (l + u) / 2 * (1 - (1 - (l + u) / 2) ^ steps) / ((l + u) / 2) =
        1 - (1 - (l + u) / 2) ^ n := by
      rw [mul_div_cancel_left₀ _ (ne_of_gt hp0), ← hn, zpow_natCast]
    have hstep : stepProbSearch total steps (k + 1) (l, u) =
        if 1 - (1 - (l + u) / 2) ^ n > total then
          stepProbSearch total steps k (l, (l + u) / 2)
        else
          stepProbSearch total steps k ((l + u) / 2, u) := by
      simp only [stepProbSearch]
      rw [hcalc]
    rw [hstep]
    by_cases hc : 1 - (1 - (l + u) / 2) ^ n > total
    · rw [if_pos hc]
      have hinv' : SearchInv total n l ((l + u) / 2) :=
        { l_nonneg := hinv.l_nonneg
          lt := by have := hinv.lt; linarith
          u_le_one := by have := hinv.lt; have := hinv.u_le_one; linarith
          f_l_le := hinv.f_l_le
          f_u_gt := Or.inl hc }
      have h := ih l ((l + u) / 2) hinv'
      refine ⟨h.1, h.2.trans ?_⟩
      rw [pow_succ]
      field_simp
      ring
    · rw [if_neg hc]
      have hinv' : SearchInv total n ((l + u) / 2) u :=
        { l_nonneg := le_of_lt hp0
          lt := by have := hinv.lt; linarith
          u_le_one := hinv.u_le_one
          f_l_le := le_of_not_lt hc
          f_u_gt := hinv.f_u_gt }
      have h := ih ((l + u) / 2) u hinv'
      refine ⟨h.1, h.2.trans ?_⟩
      rw [pow_succ]
      field_simp
      ring

set_option maxRecDepth 2000 in
/-- Claim C1: for `totalProbability ∈ [0, 1]` and an `int` step count
`updateSteps ≥ 1`, the probability `p` returned by
`GetStepProbability(totalProbability, updateSteps)` satisfies
`|1 - (1-p)^updateSteps - totalProbability| ≤ 1e-6`.  The upper bound
`2³¹ - 1` is the range of the C++ `int` argument; the actual error bound
is `updateSteps · 2⁻¹⁰⁰`. -/
theorem c1_step_probability_inversion (total : ℚ) (steps : ℤ)
    (h0 : 0 ≤ total) (h1 : total ≤ 1) (hs1 : 1 ≤ steps) (hs2 : steps ≤ 2 ^ 31 - 1) :
    |1 - (1 - GetStepProbability total steps) ^ steps - total| ≤ 1 / 1000000 := by
  set n := steps.toNat with hndef
  have hn : (n : ℤ) = steps := Int.toNat_of_nonneg (by linarith)
  have hn1 : 1 ≤ n := by omega
  have hinv0 : SearchInv total n 0 1 := by
    refine ⟨le_refl 0, one_pos, le_refl 1, ?_, Or.inr rfl⟩
    simpa using h0
  have hmain := stepProbSearch_inv total steps n hn 100 0 1 hinv0
  set l := (stepProbSearch total steps 100 (0, 1)).1 with hl
  set u := (stepProbSearch total steps 100 (0, 1)).2 with hu
  have hinv := hmain.1
  have hwidth : u - l = 1 / 2 ^ 100 := by
    simpa using hmain.2
  have hr : GetStepProbability total steps = (l + u) / 2 := rfl
  have hl0 : 0 ≤ l := hinv.l_nonneg
  have hlu : l < u := hinv.lt
  have hu1 : u ≤ 1 := hinv.u_le_one
  have hrl : l ≤ (l + u) / 2 := by linarith
  have hru : (l + u) / 2 ≤ u := by linarith
  -- monotone bounds on f at the returned midpoint
  have hmono1 : (1 - u) ^ n ≤ (1 - (l + u) / 2) ^ n :=
    pow_le_pow_left₀ (by linarith) (by linarith) n
  have hmono2 : (1 - (l + u) / 2) ^ n ≤ (1 - l) ^ n :=
    pow_le_pow_left₀ (by linarith) (by linarith) n
  have hfl : 1 - (1 - l) ^ n ≤ total := hinv.f_l_le
  have hfu : total ≤ 1 - (1 - u) ^ n := by
    rcases hinv.f_u_gt with h | h
    · exact le_of_lt h
    · rw [h]
      have : ((0 : ℚ)) ^ n = 0 := zero_pow (by omega)
      simpa [this] using h1
  have hgap : (1 - l) ^ n - (1 - u) ^ n ≤ n * (u - l) := by
    have := pow_gap_le n (1 - l) (1 - u) (by linarith) (by linarith) (by linarith)
    calc (1 - l) ^ n - (1 - u) ^ n ≤ n * ((1 - l) - (1 - u)) := this
      _ = n * (u - l) := by ring
  have hnbound : (n : ℚ) ≤ 2 ^ 31 - 1 := by
    have : (n : ℤ) ≤ 2 ^ 31 - 1 := by omega
    exact_mod_cast this
  have hnq : (0 : ℚ) ≤ (n : ℚ) := Nat.cast_nonneg n
  have herr : (n : ℚ) * (u - l) ≤ (2 ^ 31 - 1) / 2 ^ 100 := by
    rw [hwidth]
    rw [div_eq_mul_inv, div_eq_mul_inv]
    have h2 : (0 : ℚ) < 2 ^ 100 := by positivity
    have := mul_le_mul_of_nonneg_right hnbound (le_of_lt (inv_pos.mpr h2))
    calc (n : ℚ) * (1 * (2 ^ 100)⁻¹) = (n : ℚ) * (2 ^ 100)⁻¹ := by ring
      _ ≤ (2 ^ 31 - 1) * (2 ^ 100)⁻¹ := this
  have hfinal : (2 ^ 31 - 1 : ℚ) / 2 ^ 100 ≤ 1 / 1000000 := by norm_num
  rw [hr, ← hn, zpow_natCast]
  rw [abs_le]
  constructor
  · linarith
  · linarith

/-- Witness for the C1 theorem at the concrete input
`totalProbability = 1/2`, `updateSteps = 1`. -/
theorem c1_step_probability_inversion_witness :
    ((0 : ℚ) ≤ 1 / 2 ∧ (1 / 2 : ℚ) ≤ 1 ∧ (1 : ℤ) ≤ 1 ∧ (1 : ℤ) ≤ 2 ^ 31 - 1) ∧
    |1 - (1 - GetStepProbability (1 / 2) 1) ^ (1 : ℤ) - 1 / 2| ≤ 1 / 1000000 :=
  ⟨⟨by norm_num, by norm_num, le_refl 1, by norm_num⟩,
    c1_step_probability_inversion (1 / 2) 1 (by norm_num) (by norm_num)
      (le_refl 1) (by norm_num)⟩

/-! ## Claim C2 counterexample -/

set_option maxRecDepth 100000 in
/-- Claim C2 counterexample: the per-step ignition probability computed for
a moisture-100 target is `GetStepProbability 0 burnTime = 2⁻¹⁰¹`, which is
positive, so the draw `0` — a legal value of the claim's `[0, 1)` draw
range — ignites the water tile: after one `Update` of `exWorld` (grass at
`(0,0)` burning, water at `(0,1)`), the moisture-100 tile is in the burning
set, is flagged burning, and appears in `GetLastChangedTiles()`. -/
theorem c2_counterexample :
    (exWorld.tile 0 1).moisture = 100 ∧
    (0, 1) ∈ (Update exWorld (fun _ => 0)
      (Initialize exWorld (mkFireSpreadSimulation exWorld) [(0, 0)])).burningTiles ∧
    getB (Update exWorld (fun _ => 0)
      (Initialize exWorld (mkFireSpreadSimulation exWorld) [(0, 0)])).isBurning
      (GetTileIndex exWorld (0, 1)) = true ∧
    (0, 1) ∈ GetLastChangedTiles (Update exWorld (fun _ => 0)
      (Initialize exWorld (mkFireSpreadSimulation exWorld) [(0, 0)])) := by
  refine ⟨by decide, by decide, by decide, by decide⟩

/-! ## Update-loop invariants (claims C2, C5, C6) -/

/-- A coordinate pair addresses a real grid cell. -/
def InBounds (w : World) (c : ℕ × ℕ) : Prop :=
  c.1 < w.width ∧ c.2 < w.depth

instance (w : World) (c : ℕ × ℕ) : Decidable (InBounds w c) := by
  unfold InBounds
  infer_instance

theorem GetTileIndex_lt {w : World} {c : ℕ × ℕ} (h : InBounds w c) :
    GetTileIndex w c < w.width * w.depth := by
  obtain ⟨h1, h2⟩ := h
  calc c.1 * w.depth + c.2 < c.1 * w.depth + w.depth := by omega
    _ = (c.1 + 1) * w.depth := by ring
    _ ≤ w.width * w.depth := Nat.mul_le_mul_right _ (by omega)

theorem GetTileIndex_inj {w : World} {c c' : ℕ × ℕ} (h : InBounds w c)
    (h' : InBounds w c') (he : GetTileIndex w c = GetTileIndex w c') : c = c' := by
  obtain ⟨h1, h2⟩ := h
  obtain ⟨h1', h2'⟩ := h'
  unfold GetTileIndex at he
  have key : ∀ a b : ℕ, b < w.depth → (a * w.depth + b) % w.depth = b := by
    intro a b hb
    rw [Nat.add_comm, Nat.add_mul_mod_self_right]
    exact Nat.mod_eq_of_lt hb
  have hd : 0 < w.depth := by omega
  have m1 : (c.1 * w.depth + c.2) % w.depth = c.2 := key c.1 c.2 h2
  have m2 : (c'.1 * w.depth + c'.2) % w.depth = c'.2 := key c'.1 c'.2 h2'
  rw [he] at m1
  have hmod : c.2 = c'.2 := by rw [← m1, m2]
  have hdiv : c.1 = c'.1 := by
    have e2 : c.1 * w.depth = c'.1 * w.depth := by omega
    exact Nat.eq_of_mul_eq_mul_right hd e2
  exact Prod.ext hdiv hmod

theorem getB_set_ne (l : List Bool) (i j : ℕ) (v : Bool) (h : i ≠ j) :
    getB (l.set i v) j = getB l j := by
  simp [getB, List.getD_eq_getElem?_getD, List.getElem?_set_ne h]

theorem getI_set_self (l : List ℤ) (i : ℕ) (v : ℤ) (h : i < l.length) :
    getI (l.set i v) i = v := by
  simp [getI, List.getD_eq_getElem?_getD, List.getElem?_set_self h]

theorem getI_set_ne (l : List ℤ) (i j : ℕ) (v : ℤ) (h : i ≠ j) :
    getI (l.set i v) j = getI l j := by
  simp [getI, List.getD_eq_getElem?_getD, List.getElem?_set_ne h]

theorem getB_false_of_ge {l : List Bool} {j : ℕ} (h : l.length ≤ j) :
    getB l j = false := by
  rw [getB, List.getD_eq_getElem?_getD, List.getElem?_eq_none h]
  rfl

/-- State invariant of `FireSpreadSimulation` maintained by `Initialize` and
`Update`: the parameter vectors cover the grid, the burning list holds
distinct in-bounds coordinates matching the `isBurning` flags, burning tiles
are unburned with `burningFor < burnTime`, idle tiles have `burningFor = 0`,
and the initialized `burnTime` entries lie in `[1, 5]`. -/
structure SimInv (w : World) (s : SimState) : Prop where
  len_isBurning : s.isBurning.length = w.width * w.depth
  len_hasBurned : s.hasBurned.length = w.width * w.depth
  len_burningFor : s.burningFor.length = w.width * w.depth
  len_burnTime : s.burnTime.length = w.width * w.depth
  nodup : s.burningTiles.Nodup
  bounds : ∀ c ∈ s.burningTiles, InBounds w c
  burning_flag : ∀ c ∈ s.burningTiles, getB s.isBurning (GetTileIndex w c) = true
  burning_not_burned : ∀ c ∈ s.burningTiles, getB s.hasBurned (GetTileIndex w c) = false
  burning_time : ∀ c ∈ s.burningTiles,
    getI s.burningFor (GetTileIndex w c) < getI s.burnTime (GetTileIndex w c)
  not_burning : ∀ x < w.width, ∀ y < w.depth,
    (x, y) ∉ s.burningTiles → getB s.isBurning (GetTileIndex w (x, y)) = false
  idle_zero : ∀ i < w.width * w.depth,
    getB s.isBurning i = false → getB s.hasBurned i = false → getI s.burningFor i = 0
  burned_not_burning : ∀ i < w.width * w.depth,
    getB s.hasBurned i = true → getB s.isBurning i = false
  bT_bounds : ∀ i < w.width * w.depth, 1 ≤ getI s.burnTime i ∧ getI s.burnTime i ≤ 5
  bF_nonneg : ∀ i < w.width * w.depth, 0 ≤ getI s.burningFor i

/-- Mid-pass invariant of the `Update` source loop: `R` is the remaining
suffix of the burning list, `σ` the current mutated state, `N` the
accumulated `nextBurningTiles`. -/
structure MidInv (w : World) (R : List (ℕ × ℕ)) (σ : SimState) (N : List (ℕ × ℕ)) : Prop where
  len_isBurning : σ.isBurning.length = w.width * w.depth
  len_hasBurned : σ.hasBurned.length = w.width * w.depth
  len_burningFor : σ.burningFor.length = w.width * w.depth
  len_burnTime : σ.burnTime.length = w.width * w.depth
  nodupR : R.Nodup
  nodupN : N.Nodup
  boundsR : ∀ c ∈ R, InBounds w c
  boundsN : ∀ c ∈ N, InBounds w c
  R_burning : ∀ c ∈ R, getB σ.isBurning (GetTileIndex w c) = true
  R_not_burned : ∀ c ∈ R, getB σ.hasBurned (GetTileIndex w c) = false
  R_time : ∀ c ∈ R,
    getI σ.burningFor (GetTileIndex w c) < getI σ.burnTime (GetTileIndex w c)
  R_not_in_N : ∀ c ∈ R, c ∉ N
  N_time : ∀ c ∈ N,
    getI σ.burningFor (GetTileIndex w c) < getI σ.burnTime (GetTileIndex w c)
  N_iff : ∀ x < w.width, ∀ y < w.depth, (x, y) ∉ R →
    ((x, y) ∈ N ↔ getB σ.isBurning (GetTileIndex w (x, y)) = true)
  burned_not_burning : ∀ i < w.width * w.depth,
    getB σ.hasBurned i = true → getB σ.isBurning i = false
  idle_zero : ∀ i < w.width * w.depth,
    getB σ.isBurning i = false → getB σ.hasBurned i = false → getI σ.burningFor i = 0
  bT_bounds : ∀ i < w.width * w.depth, 1 ≤ getI σ.burnTime i ∧ getI σ.burnTime i ≤ 5
  bF_nonneg : ∀ i < w.width * w.depth, 0 ≤ getI σ.burningFor i

theorem GetNeighborTiles_inBounds (w : World) (c : ℕ × ℕ) :
    ∀ nb ∈ GetNeighborTiles w c, InBounds w nb := by
  intro nb hnb
  unfold GetNeighborTiles at hnb
  rcases List.mem_flatMap.mp hnb with ⟨i, _, hnb2⟩
  rcases List.mem_filterMap.mp hnb2 with ⟨j, _, hj⟩
  dsimp only at hj
  split_ifs at hj with hcond
  · cases hj
    obtain ⟨_, hx0, hxw, hy0, hyd⟩ := hcond
    constructor
    · show ((c.1 : ℤ) + (i : ℤ) - 1).toNat < w.width
      omega
    · show ((c.2 : ℤ) + (j : ℤ) - 1).toNat < w.depth
      omega

theorem igniteNeighbors_fields (w : World) (rng : ℕ → ℚ) (src : ℕ × ℕ) :
    ∀ (nbs : List (ℕ × ℕ)) (σ : SimState) (N : List (ℕ × ℕ)) (k : ℕ),
      (igniteNeighbors w rng src nbs (σ, N, k)).1.hasBurned = σ.hasBurned ∧
      (igniteNeighbors w rng src nbs (σ, N, k)).1.burningFor = σ.burningFor ∧
      (igniteNeighbors w rng src nbs (σ, N, k)).1.burnTime = σ.burnTime ∧
      (igniteNeighbors w rng src nbs (σ, N, k)).1.windSpeed = σ.windSpeed ∧
      (igniteNeighbors w rng src nbs (σ, N, k)).1.windDirection = σ.windDirection ∧
      (igniteNeighbors w rng src nbs (σ, N, k)).1.currentTime = σ.currentTime ∧
      (igniteNeighbors w rng src nbs (σ, N, k)).1.burningTiles = σ.burningTiles ∧
      (igniteNeighbors w rng src nbs (σ, N, k)).1.prohibitedTiles = σ.prohibitedTiles ∧
      (igniteNeighbors w rng src nbs (σ, N, k)).1.isBurning.length = σ.isBurning.length
  | [], σ, N, k => ⟨rfl, rfl, rfl, rfl, rfl, rfl, rfl, rfl, rfl⟩
  | nb :: rest, σ, N, k => by
    simp only [igniteNeighbors]
    split_ifs with h1 h2
    · exact igniteNeighbors_fields w rng src rest σ N k
    · have ih := igniteNeighbors_fields w rng src rest
        { σ with
          isBurning := setBool σ.isBurning (GetTileIndex w nb) true
          changesOverTime := pushChange σ.changesOverTime σ.currentTime nb }
        (N ++ [nb]) (k + 1)
      refine ⟨ih.1, ih.2.1, ih.2.2.1, ih.2.2.2.1, ih.2.2.2.2.1, ih.2.2.2.2.2.1,
        ih.2.2.2.2.2.2.1, ih.2.2.2.2.2.2.2.1, ih.2.2.2.2.2.2.2.2.trans ?_⟩
      show (setBool σ.isBurning (GetTileIndex w nb) true).length = _
      simp [setBool]
    · exact igniteNeighbors_fields w rng src rest σ N (k + 1)

theorem igniteNeighbors_inv (w : World) (rng : ℕ → ℚ) (src : ℕ × ℕ)
    (R : List (ℕ × ℕ)) :
    ∀ (nbs : List (ℕ × ℕ)) (σ : SimState) (N : List (ℕ × ℕ)) (k : ℕ),
      (∀ c ∈ nbs, InBounds w c) → MidInv w R σ N →
      MidInv w R (igniteNeighbors w rng src nbs (σ, N, k)).1
        (igniteNeighbors w rng src nbs (σ, N, k)).2.1 ∧
      (∀ c ∈ N, c ∈ (igniteNeighbors w rng src nbs (σ, N, k)).2.1)
  | [], σ, N, k, _, hmid => ⟨hmid, fun c hc => hc⟩
  | nb :: rest, σ, N, k, hnbs, hmid => by
    have hnb : InBounds w nb := hnbs nb (List.mem_cons_self nb rest)
    have hrest : ∀ c ∈ rest, InBounds w c := fun c hc => hnbs c (List.mem_cons_of_mem nb hc)
    simp only [igniteNeighbors]
    split_ifs with h1 h2
    · exact igniteNeighbors_inv w rng src R rest σ N k hrest hmid
    · -- ignition branch: `nb` was neither burning nor burned, and the draw succeeded
      rw [Bool.or_eq_true, not_or, Bool.not_eq_true, Bool.not_eq_true] at h1
      obtain ⟨hnb_not_burning, hnb_not_burned⟩ := h1
      have hni_lt : GetTileIndex w nb < w.width * w.depth := GetTileIndex_lt hnb
      have hnb_notR : nb ∉ R := fun hc => by
        have hb := hmid.R_burning nb hc
        exact absurd (hb.symm.trans hnb_not_burning) (by simp)
      have hnb_notN : nb ∉ N := by
        intro hc
        have hnotR' : (nb.1, nb.2) ∉ R := hnb_notR
        have hc' : (nb.1, nb.2) ∈ N := hc
        have hb := (hmid.N_iff nb.1 hnb.1 nb.2 hnb.2 hnotR').mp hc'
        have hb' : getB σ.isBurning (GetTileIndex w nb) = true := hb
        exact absurd (hb'.symm.trans hnb_not_burning) (by simp)
      refine igniteNeighbors_inv w rng src R rest _ _ _ hrest ?_ |>.imp id ?_
      · -- MidInv for the mutated state
        refine
          { len_isBurning := by simpa [setBool] using hmid.len_isBurning
            len_hasBurned := hmid.len_hasBurned
            len_burningFor := hmid.len_burningFor
            len_burnTime := hmid.len_burnTime
            nodupR := hmid.nodupR
            nodupN := ?_
            boundsR := hmid.boundsR
            boundsN := ?_
            R_burning := ?_
            R_not_burned := hmid.R_not_burned
            R_time := hmid.R_time
            R_not_in_N := ?_
            N_time := ?_
            N_iff := ?_
            burned_not_burning := ?_
            idle_zero := ?_
            bT_bounds := hmid.bT_bounds
            bF_nonneg := hmid.bF_nonneg }
        · rw [List.nodup_append]
          exact ⟨hmid.nodupN, List.nodup_singleton nb,
            fun a ha hb => by rw [List.mem_singleton.mp hb] at ha; exact hnb_notN ha⟩
        · intro c hc
          rcases List.mem_append.mp hc with hc | hc
          · exact hmid.boundsN c hc
          · rw [List.mem_singleton.mp hc]; exact hnb
        · intro c hc
          have hcneq : GetTileIndex w c ≠ GetTileIndex w nb := by
            intro he
            rw [GetTileIndex_inj (hmid.boundsR c hc) hnb he] at hc
            exact hnb_notR hc
          show getB (setBool σ.isBurning (GetTileIndex w nb) true) (GetTileIndex w c) = true
          rw [setBool, getB_set_ne _ _ _ _ (Ne.symm hcneq)]
          exact hmid.R_burning c hc
        · intro c hc hcN
          rcases List.mem_append.mp hcN with h | h
          · exact hmid.R_not_in_N c hc h
          · rw [List.mem_singleton.mp h] at hc
            exact hnb_notR hc
        · intro c hc
          rcases List.mem_append.mp hc with h | h
          · exact hmid.N_time c h
          · rw [List.mem_singleton.mp h]
            show getI σ.burningFor _ < getI σ.burnTime _
            have hzero := hmid.idle_zero (GetTileIndex w nb) hni_lt hnb_not_burning hnb_not_burned
            have hbt := (hmid.bT_bounds (GetTileIndex w nb) hni_lt).1
            omega
        · intro x hx y hy hxyR
          by_cases hxy : (x, y) = nb
          · subst hxy
            constructor
            · intro _
              show getB (setBool σ.isBurning (GetTileIndex w (x, y)) true) (GetTileIndex w (x, y)) = true
              rw [setBool]
              exact getB_set_self true (by rw [hmid.len_isBurning]; exact hni_lt)
            · intro _
              exact List.mem_append_right _ (List.mem_singleton.mpr rfl)
          · have hne : GetTileIndex w (x, y) ≠ GetTileIndex w nb := by
              intro he
              exact hxy (GetTileIndex_inj ⟨hx, hy⟩ hnb he)
            have : getB (setBool σ.isBurning (GetTileIndex w nb) true) (GetTileIndex w (x, y)) =
                getB σ.isBurning (GetTileIndex w (x, y)) := by
              rw [setBool]
              exact getB_set_ne _ _ _ _ (Ne.symm hne)
            show (x, y) ∈ N ++ [nb] ↔
              getB (setBool σ.isBurning (GetTileIndex w nb) true) (GetTileIndex w (x, y)) = true
            rw [this]
            constructor
            · intro hmem
              rcases List.mem_append.mp hmem with h | h
              · exact (hmid.N_iff x hx y hy hxyR).mp h
              · exact absurd (List.mem_singleton.mp h) hxy
            · intro hflag
              exact List.mem_append_left _ ((hmid.N_iff x hx y hy hxyR).mpr hflag)
        · intro i hi hburned
          by_cases hieq : i = GetTileIndex w nb
          · subst hieq
            have hburned' : getB σ.hasBurned (GetTileIndex w nb) = true := hburned
            exact absurd (hburned'.symm.trans hnb_not_burned) (by simp)
          · show getB (setBool σ.isBurning (GetTileIndex w nb) true) i = false
            rw [setBool, getB_set_ne _ _ _ _ (fun he => hieq he.symm)]
            exact hmid.burned_not_burning i hi hburned
        · intro i hi hflag hburned
          by_cases hieq : i = GetTileIndex w nb
          · subst hieq
            have htrue : getB (setBool σ.isBurning (GetTileIndex w nb) true) (GetTileIndex w nb) = true := by
              unfold setBool
              exact getB_set_self true (by rw [hmid.len_isBurning]; exact hni_lt)
            have hflag' : getB (setBool σ.isBurning (GetTileIndex w nb) true) (GetTileIndex w nb) = false := hflag
            exact absurd (htrue.symm.trans hflag') (by simp)
          · refine hmid.idle_zero i hi ?_ hburned
            rw [setBool, getB_set_ne _ _ _ _ (fun he => hieq he.symm)] at hflag
            exact hflag
      · intro hN c hc
        exact hN c (List.mem_append_left _ hc)
    · exact igniteNeighbors_inv w rng src R rest σ N (k + 1) hrest hmid

theorem UpdateSource_inv (w : World) (rng : ℕ → ℚ) (src : ℕ × ℕ) (R' : List (ℕ × ℕ))
    (σ : SimState) (N : List (ℕ × ℕ)) (k : ℕ) (hmid : MidInv w (src :: R') σ N) :
    MidInv w R' (UpdateSource w rng (σ, N, k) src).1 (UpdateSource w rng (σ, N, k) src).2.1 ∧
    (UpdateSource w rng (σ, N, k) src).1.burnTime = σ.burnTime ∧
    (UpdateSource w rng (σ, N, k) src).1.windSpeed = σ.windSpeed ∧
    (UpdateSource w rng (σ, N, k) src).1.windDirection = σ.windDirection ∧
    (UpdateSource w rng (σ, N, k) src).1.currentTime = σ.currentTime ∧
    (UpdateSource w rng (σ, N, k) src).1.burningTiles = σ.burningTiles ∧
    (UpdateSource w rng (σ, N, k) src).1.prohibitedTiles = σ.prohibitedTiles ∧
    (∀ i, i ≠ GetTileIndex w src →
      getB (UpdateSource w rng (σ, N, k) src).1.hasBurned i = getB σ.hasBurned i ∧
      getI (UpdateSource w rng (σ, N, k) src).1.burningFor i = getI σ.burningFor i) ∧
    (getB (UpdateSource w rng (σ, N, k) src).1.hasBurned (GetTileIndex w src) = true ↔
      getI σ.burnTime (GetTileIndex w src) ≤ getI σ.burningFor (GetTileIndex w src) + 1) ∧
    (src ∈ (UpdateSource w rng (σ, N, k) src).2.1 ↔
      getI σ.burningFor (GetTileIndex w src) + 1 < getI σ.burnTime (GetTileIndex w src)) ∧
    (∀ c ∈ N, c ∈ (UpdateSource w rng (σ, N, k) src).2.1) ∧
    (∀ i, getB σ.hasBurned i = true →
      getB (UpdateSource w rng (σ, N, k) src).1.hasBurned i = true) := by
  have hsrc : InBounds w src := hmid.boundsR src (List.mem_cons_self src R')
  have hti_lt : GetTileIndex w src < w.width * w.depth := GetTileIndex_lt hsrc
  obtain ⟨hig, hNmono⟩ := igniteNeighbors_inv w rng src (src :: R') (GetNeighborTiles w src)
    σ N k (GetNeighborTiles_inBounds w src) hmid
  have hfields := igniteNeighbors_fields w rng src (GetNeighborTiles w src) σ N k
  have hfB : (igniteNeighbors w rng src (GetNeighborTiles w src) (σ, N, k)).1.hasBurned =
      σ.hasBurned := hfields.1
  have hfF : (igniteNeighbors w rng src (GetNeighborTiles w src) (σ, N, k)).1.burningFor =
      σ.burningFor := hfields.2.1
  have hfT : (igniteNeighbors w rng src (GetNeighborTiles w src) (σ, N, k)).1.burnTime =
      σ.burnTime := hfields.2.2.1
  have hsrc_notN1 : src ∉ (igniteNeighbors w rng src (GetNeighborTiles w src) (σ, N, k)).2.1 :=
    hig.R_not_in_N src (List.mem_cons_self src R')
  have hsrc_burning : getB (igniteNeighbors w rng src (GetNeighborTiles w src) (σ, N, k)).1.isBurning
      (GetTileIndex w src) = true := hig.R_burning src (List.mem_cons_self src R')
  have hsrc_not_burned : getB σ.hasBurned (GetTileIndex w src) = false := by
    rw [← hfB]
    exact hig.R_not_burned src (List.mem_cons_self src R')
  have hne_of_memR' : ∀ c ∈ R', GetTileIndex w c ≠ GetTileIndex w src := by
    intro c hc he
    have := GetTileIndex_inj (hig.boundsR c (List.mem_cons_of_mem src hc)) hsrc he
    subst this
    exact (List.nodup_cons.mp hig.nodupR).1 hc
  have hne_of_memN : ∀ c ∈ (igniteNeighbors w rng src (GetNeighborTiles w src) (σ, N, k)).2.1,
      GetTileIndex w c ≠ GetTileIndex w src := by
    intro c hc he
    have := GetTileIndex_inj (hig.boundsN c hc) hsrc he
    subst this
    exact hsrc_notN1 hc
  simp only [UpdateSource]
  split_ifs with hcond
  · -- the incremented burningFor reached burnTime: the source burns out
    rw [hfF, hfT] at hcond
    have hlenB : GetTileIndex w src <
        (igniteNeighbors w rng src (GetNeighborTiles w src) (σ, N, k)).1.isBurning.length := by
      rw [hig.len_isBurning]; exact hti_lt
    have hlenH : GetTileIndex w src <
        (igniteNeighbors w rng src (GetNeighborTiles w src) (σ, N, k)).1.hasBurned.length := by
      rw [hig.len_hasBurned]; exact hti_lt
    refine ⟨?_, hfT, hfields.2.2.2.1, hfields.2.2.2.2.1, hfields.2.2.2.2.2.1,
      hfields.2.2.2.2.2.2.1, hfields.2.2.2.2.2.2.2.1, ?_, ?_, ?_, ?_, ?_⟩
    · refine
        { len_isBurning := ?_
          len_hasBurned := ?_
          len_burningFor := hig.len_burningFor
          len_burnTime := hig.len_burnTime
          nodupR := (List.nodup_cons.mp hig.nodupR).2
          nodupN := hig.nodupN
          boundsR := fun c hc => hig.boundsR c (List.mem_cons_of_mem src hc)
          boundsN := hig.boundsN
          R_burning := ?_
          R_not_burned := ?_
          R_time := fun c hc => hig.R_time c (List.mem_cons_of_mem src hc)
          R_not_in_N := fun c hc => hig.R_not_in_N c (List.mem_cons_of_mem src hc)
          N_time := hig.N_time
          N_iff := ?_
          burned_not_burning := ?_
          idle_zero := ?_
          bT_bounds := hig.bT_bounds
          bF_nonneg := hig.bF_nonneg }
      · show (setBool _ _ _).length = _
        unfold setBool
        rw [List.length_set]
        exact hig.len_isBurning
      · show (setBool _ _ _).length = _
        unfold setBool
        rw [List.length_set]
        exact hig.len_hasBurned
      · intro c hc
        show getB (setBool _ (GetTileIndex w src) false) (GetTileIndex w c) = true
        unfold setBool
        rw [getB_set_ne _ _ _ _ (fun he => hne_of_memR' c hc he.symm)]
        exact hig.R_burning c (List.mem_cons_of_mem src hc)
      · intro c hc
        show getB (setBool _ (GetTileIndex w src) true) (GetTileIndex w c) = false
        unfold setBool
        rw [getB_set_ne _ _ _ _ (fun he => hne_of_memR' c hc he.symm)]
        exact hig.R_not_burned c (List.mem_cons_of_mem src hc)
      · intro x hx y hy hxyR
        by_cases hxy : (x, y) = src
        · rw [hxy]
          constructor
          · intro hmem
            exact absurd hmem hsrc_notN1
          · intro hflag
            have hfalse : getB (setBool
                (igniteNeighbors w rng src (GetNeighborTiles w src) (σ, N, k)).1.isBurning
                (GetTileIndex w src) false) (GetTileIndex w src) = false := by
              unfold setBool
              exact getB_set_self false hlenB
            rw [hfalse] at hflag
            exact absurd hflag (by simp)
        · have hxyR' : (x, y) ∉ src :: R' := by
            intro hmem
            rcases List.mem_cons.mp hmem with h | h
            · exact hxy h
            · exact hxyR h
          have hne : GetTileIndex w (x, y) ≠ GetTileIndex w src := by
            intro he
            exact hxy (GetTileIndex_inj ⟨hx, hy⟩ hsrc he)
          have hpres : getB (setBool
              (igniteNeighbors w rng src (GetNeighborTiles w src) (σ, N, k)).1.isBurning
              (GetTileIndex w src) false) (GetTileIndex w (x, y)) =
              getB (igniteNeighbors w rng src (GetNeighborTiles w src) (σ, N, k)).1.isBurning
                (GetTileIndex w (x, y)) := by
            unfold setBool
            exact getB_set_ne _ _ _ _ (Ne.symm hne)
          show _ ↔ getB (setBool _ _ _) _ = true
          rw [hpres]
          exact hig.N_iff x hx y hy hxyR'
      · intro i hi hburned
        by_cases hieq : i = GetTileIndex w src
        · subst hieq
          show getB (setBool _ (GetTileIndex w src) false) (GetTileIndex w src) = false
          unfold setBool
          exact getB_set_self false hlenB
        · show getB (setBool _ (GetTileIndex w src) false) i = false
          unfold setBool
          rw [getB_set_ne _ _ _ _ (fun he => hieq he.symm)]
          refine hig.burned_not_burning i hi ?_
          have : getB (setBool (igniteNeighbors w rng src (GetNeighborTiles w src)
              (σ, N, k)).1.hasBurned (GetTileIndex w src) true) i =
              getB (igniteNeighbors w rng src (GetNeighborTiles w src) (σ, N, k)).1.hasBurned i := by
            unfold setBool
            exact getB_set_ne _ _ _ _ (fun he => hieq he.symm)
          rw [← this]
          exact hburned
      · intro i hi hflag hburned
        by_cases hieq : i = GetTileIndex w src
        · subst hieq
          have htrue : getB (setBool (igniteNeighbors w rng src (GetNeighborTiles w src)
              (σ, N, k)).1.hasBurned (GetTileIndex w src) true) (GetTileIndex w src) = true := by
            unfold setBool
            exact getB_set_self true hlenH
          exact absurd (htrue.symm.trans hburned) (by simp)
        · refine hig.idle_zero i hi ?_ ?_
          · have : getB (setBool (igniteNeighbors w rng src (GetNeighborTiles w src)
                (σ, N, k)).1.isBurning (GetTileIndex w src) false) i =
                getB (igniteNeighbors w rng src (GetNeighborTiles w src) (σ, N, k)).1.isBurning i := by
              unfold setBool
              exact getB_set_ne _ _ _ _ (fun he => hieq he.symm)
            rw [← this]
            exact hflag
          · have : getB (setBool (igniteNeighbors w rng src (GetNeighborTiles w src)
                (σ, N, k)).1.hasBurned (GetTileIndex w src) true) i =
                getB (igniteNeighbors w rng src (GetNeighborTiles w src) (σ, N, k)).1.hasBurned i := by
              unfold setBool
              exact getB_set_ne _ _ _ _ (fun he => hieq he.symm)
            rw [← this]
            exact hburned
    · intro i hineq
      constructor
      · show getB (setBool _ (GetTileIndex w src) true) i = _
        unfold setBool
        rw [getB_set_ne _ _ _ _ (fun he => hineq he.symm), hfB]
      · show getI (igniteNeighbors w rng src (GetNeighborTiles w src) (σ, N, k)).1.burningFor i = _
        rw [hfF]
    · show getB (setBool _ (GetTileIndex w src) true) (GetTileIndex w src) = true ↔ _
      unfold setBool
      rw [getB_set_self true hlenH]
      exact iff_of_true rfl hcond
    · exact iff_of_false hsrc_notN1 (by omega)
    · exact hNmono
    · intro i hbur
      by_cases hieq : i = GetTileIndex w src
      · subst hieq
        show getB (setBool _ (GetTileIndex w src) true) (GetTileIndex w src) = true
        unfold setBool
        exact getB_set_self true hlenH
      · show getB (setBool _ (GetTileIndex w src) true) i = true
        unfold setBool
        rw [getB_set_ne _ _ _ _ (fun he => hieq he.symm), hfB]
        exact hbur
  · -- still burning: store the incremented burningFor and keep the source
    rw [hfF, hfT] at hcond
    have hbF0 : 0 ≤ getI σ.burningFor (GetTileIndex w src) := hmid.bF_nonneg _ hti_lt
    have hbT5 : getI σ.burnTime (GetTileIndex w src) ≤ 5 := (hmid.bT_bounds _ hti_lt).2
    have hclamp : clampI 0 5 (getI σ.burningFor (GetTileIndex w src) + 1) =
        getI σ.burningFor (GetTileIndex w src) + 1 := by
      unfold clampI
      omega
    have hlenF : GetTileIndex w src < σ.burningFor.length := by
      rw [hmid.len_burningFor]; exact hti_lt
    have hsetF : getI (setClampedI
        (igniteNeighbors w rng src (GetNeighborTiles w src) (σ, N, k)).1.burningFor
        (GetTileIndex w src) 0 5
        (getI (igniteNeighbors w rng src (GetNeighborTiles w src) (σ, N, k)).1.burningFor
          (GetTileIndex w src) + 1))
        (GetTileIndex w src) = getI σ.burningFor (GetTileIndex w src) + 1 := by
      unfold setClampedI
      rw [hfF, hclamp]
      exact getI_set_self _ _ _ hlenF
    have hsetF_ne : ∀ i, i ≠ GetTileIndex w src → getI (setClampedI
        (igniteNeighbors w rng src (GetNeighborTiles w src) (σ, N, k)).1.burningFor
        (GetTileIndex w src) 0 5
        (getI (igniteNeighbors w rng src (GetNeighborTiles w src) (σ, N, k)).1.burningFor
          (GetTileIndex w src) + 1)) i =
        getI σ.burningFor i := by
      intro i hineq
      unfold setClampedI
      rw [getI_set_ne _ _ _ _ (fun he => hineq he.symm), hfF]
    refine ⟨?_, hfT, hfields.2.2.2.1, hfields.2.2.2.2.1, hfields.2.2.2.2.2.1,
      hfields.2.2.2.2.2.2.1, hfields.2.2.2.2.2.2.2.1, ?_, ?_, ?_, ?_, ?_⟩
    · refine
        { len_isBurning := hig.len_isBurning
          len_hasBurned := hig.len_hasBurned
          len_burningFor := ?_
          len_burnTime := hig.len_burnTime
          nodupR := (List.nodup_cons.mp hig.nodupR).2
          nodupN := ?_
          boundsR := fun c hc => hig.boundsR c (List.mem_cons_of_mem src hc)
          boundsN := ?_
          R_burning := fun c hc => hig.R_burning c (List.mem_cons_of_mem src hc)
          R_not_burned := fun c hc => hig.R_not_burned c (List.mem_cons_of_mem src hc)
          R_time := ?_
          R_not_in_N := ?_
          N_time := ?_
          N_iff := ?_
          burned_not_burning := hig.burned_not_burning
          idle_zero := ?_
          bT_bounds := hig.bT_bounds
          bF_nonneg := ?_ }
      · show (setClampedI _ _ _ _ _).length = _
        unfold setClampedI
        rw [List.length_set]
        exact hig.len_burningFor
      · rw [List.nodup_append]
        exact ⟨hig.nodupN, List.nodup_singleton src,
          fun a ha hb => by rw [List.mem_singleton.mp hb] at ha; exact hsrc_notN1 ha⟩
      · intro c hc
        rcases List.mem_append.mp hc with h | h
        · exact hig.boundsN c h
        · rw [List.mem_singleton.mp h]; exact hsrc
      · intro c hc
        show getI (setClampedI _ _ _ _ _) (GetTileIndex w c) < getI _ (GetTileIndex w c)
        rw [hsetF_ne _ (hne_of_memR' c hc)]
        have h := hig.R_time c (List.mem_cons_of_mem src hc)
        rw [hfF] at h
        exact h
      · intro c hc hcN
        rcases List.mem_append.mp hcN with h | h
        · exact hig.R_not_in_N c (List.mem_cons_of_mem src hc) h
        · rw [List.mem_singleton.mp h] at hc
          exact (List.nodup_cons.mp hig.nodupR).1 hc
      · intro c hc
        rcases List.mem_append.mp hc with h | h
        · show getI (setClampedI _ _ _ _ _) (GetTileIndex w c) < getI _ (GetTileIndex w c)
          rw [hsetF_ne _ (hne_of_memN c h)]
          have h2 := hig.N_time c h
          rw [hfF] at h2
          exact h2
        · rw [List.mem_singleton.mp h]
          show getI (setClampedI _ _ _ _ _) (GetTileIndex w src) < getI _ (GetTileIndex w src)
          rw [hsetF, hfT]
          omega
      · intro x hx y hy hxyR
        by_cases hxy : (x, y) = src
        · rw [hxy]
          constructor
          · intro _
            exact hsrc_burning
          · intro _
            exact List.mem_append_right _ (List.mem_singleton.mpr rfl)
        · have hxyR' : (x, y) ∉ src :: R' := by
            intro hmem
            rcases List.mem_cons.mp hmem with h | h
            · exact hxy h
            · exact hxyR h
          constructor
          · intro hmem
            rcases List.mem_append.mp hmem with h | h
            · exact (hig.N_iff x hx y hy hxyR').mp h
            · exact absurd (List.mem_singleton.mp h) hxy
          · intro hflag
            exact List.mem_append_left _ ((hig.N_iff x hx y hy hxyR').mpr hflag)
      · intro i hi hflag hburned
        by_cases hieq : i = GetTileIndex w src
        · subst hieq
          rw [hsrc_burning] at hflag
          exact absurd hflag (by simp)
        · show getI (setClampedI _ _ _ _ _) i = 0
          rw [hsetF_ne i hieq]
          have h0 := hig.idle_zero i hi hflag hburned
          rw [hfF] at h0
          exact h0
      · intro i hi
        by_cases hieq : i = GetTileIndex w src
        · subst hieq
          show 0 ≤ getI (setClampedI _ _ _ _ _) (GetTileIndex w src)
          rw [hsetF]
          omega
        · show 0 ≤ getI (setClampedI _ _ _ _ _) i
          rw [hsetF_ne i hieq]
          have h0 := hmid.bF_nonneg i hi
          exact h0
    · intro i hineq
      constructor
      · show getB (igniteNeighbors w rng src (GetNeighborTiles w src) (σ, N, k)).1.hasBurned i = _
        rw [hfB]
      · exact hsetF_ne i hineq
    · show getB (igniteNeighbors w rng src (GetNeighborTiles w src) (σ, N, k)).1.hasBurned
        (GetTileIndex w src) = true ↔ _
      rw [hfB]
      refine iff_of_false ?_ (by omega)
      rw [hsrc_not_burned]
      simp
    · refine iff_of_true (List.mem_append_right _ (List.mem_singleton.mpr rfl)) (by omega)
    · intro c hc
      exact List.mem_append_left _ (hNmono c hc)
    · intro i hbur
      show getB (igniteNeighbors w rng src (GetNeighborTiles w src) (σ, N, k)).1.hasBurned i = true
      rw [hfB]
      exact hbur

theorem UpdateLoop_inv (w : World) (rng : ℕ → ℚ) :
    ∀ (R : List (ℕ × ℕ)) (σ : SimState) (N : List (ℕ × ℕ)) (k : ℕ), MidInv w R σ N →
      MidInv w [] (UpdateLoop w rng R (σ, N, k)).1 (UpdateLoop w rng R (σ, N, k)).2.1 ∧
      (UpdateLoop w rng R (σ, N, k)).1.burnTime = σ.burnTime ∧
      (UpdateLoop w rng R (σ, N, k)).1.windSpeed = σ.windSpeed ∧
      (UpdateLoop w rng R (σ, N, k)).1.windDirection = σ.windDirection ∧
      (UpdateLoop w rng R (σ, N, k)).1.currentTime = σ.currentTime ∧
      (UpdateLoop w rng R (σ, N, k)).1.burningTiles = σ.burningTiles ∧
      (UpdateLoop w rng R (σ, N, k)).1.prohibitedTiles = σ.prohibitedTiles ∧
      (∀ i, (∀ c ∈ R, GetTileIndex w c ≠ i) →
        getB (UpdateLoop w rng R (σ, N, k)).1.hasBurned i = getB σ.hasBurned i ∧
        getI (UpdateLoop w rng R (σ, N, k)).1.burningFor i = getI σ.burningFor i) ∧
      (∀ c ∈ R,
        (getB (UpdateLoop w rng R (σ, N, k)).1.hasBurned (GetTileIndex w c) = true ↔
          getI σ.burnTime (GetTileIndex w c) ≤ getI σ.burningFor (GetTileIndex w c) + 1) ∧
        (c ∈ (UpdateLoop w rng R (σ, N, k)).2.1 ↔
          getI σ.burningFor (GetTileIndex w c) + 1 < getI σ.burnTime (GetTileIndex w c))) ∧
      (∀ c ∈ N, c ∈ (UpdateLoop w rng R (σ, N, k)).2.1) ∧
      (∀ i, getB σ.hasBurned i = true →
        getB (UpdateLoop w rng R (σ, N, k)).1.hasBurned i = true)
  | [], σ, N, k, hmid =>
    ⟨hmid, rfl, rfl, rfl, rfl, rfl, rfl, fun _ _ => ⟨rfl, rfl⟩,
      fun c hc => absurd hc (List.not_mem_nil c), fun _ hc => hc, fun _ h => h⟩
  | src :: R', σ, N, k, hmid => by
    have hsrc : InBounds w src := hmid.boundsR src (List.mem_cons_self src R')
    have hti_lt : GetTileIndex w src < w.width * w.depth := GetTileIndex_lt hsrc
    have hsrc_notR' : src ∉ R' := (List.nodup_cons.mp hmid.nodupR).1
    have hne_of_memR' : ∀ c ∈ R', GetTileIndex w c ≠ GetTileIndex w src := by
      intro c hc he
      have := GetTileIndex_inj (hmid.boundsR c (List.mem_cons_of_mem src hc)) hsrc he
      subst this
      exact hsrc_notR' hc
    obtain ⟨hus_mid, husT, husWS, husWD, husCT, husBTl, husP, husTrack, husBurn,
      husMem, husNmono, husHmono⟩ := UpdateSource_inv w rng src R' σ N k hmid
    have ih := UpdateLoop_inv w rng R' (UpdateSource w rng (σ, N, k) src).1
      (UpdateSource w rng (σ, N, k) src).2.1 (UpdateSource w rng (σ, N, k) src).2.2 hus_mid
    obtain ⟨ihmid, ihT, ihWS, ihWD, ihCT, ihBTl, ihP, ihTrack, ihPerC, ihNmono, ihHmono⟩ := ih
    have hloop_eq : UpdateLoop w rng (src :: R') (σ, N, k) =
        UpdateLoop w rng R' ((UpdateSource w rng (σ, N, k) src).1,
          (UpdateSource w rng (σ, N, k) src).2.1, (UpdateSource w rng (σ, N, k) src).2.2) := rfl
    rw [hloop_eq]
    refine ⟨ihmid, ihT.trans husT, ihWS.trans husWS, ihWD.trans husWD, ihCT.trans husCT,
      ihBTl.trans husBTl, ihP.trans husP, ?_, ?_, ?_, ?_⟩
    · intro i hi
      have h1 := ihTrack i (fun c hc => hi c (List.mem_cons_of_mem src hc))
      have h2 := husTrack i (fun he => hi src (List.mem_cons_self src R') he.symm)
      exact ⟨h1.1.trans h2.1, h1.2.trans h2.2⟩
    · intro c hc
      rcases List.mem_cons.mp hc with hceq | hc'
      · subst hceq
        have htr := ihTrack (GetTileIndex w c) (fun c' hc' => hne_of_memR' c' hc')
        constructor
        · rw [htr.1]
          exact husBurn
        · constructor
          · intro hmem
            by_contra hnot
            have hcond : getI σ.burnTime (GetTileIndex w c) ≤
                getI σ.burningFor (GetTileIndex w c) + 1 := by omega
            have hb1 : getB (UpdateSource w rng (σ, N, k) c).1.hasBurned
                (GetTileIndex w c) = true := husBurn.mpr hcond
            have hb2 := ihHmono _ hb1
            have hflag := ihmid.burned_not_burning _ hti_lt hb2
            have hm' : (c.1, c.2) ∈ (UpdateLoop w rng R'
                ((UpdateSource w rng (σ, N, k) c).1,
                  (UpdateSource w rng (σ, N, k) c).2.1,
                  (UpdateSource w rng (σ, N, k) c).2.2)).2.1 := hmem
            have hiso := (ihmid.N_iff c.1 hsrc.1 c.2 hsrc.2 (List.not_mem_nil _)).mp hm'
            have hiso' : getB (UpdateLoop w rng R'
                ((UpdateSource w rng (σ, N, k) c).1,
                  (UpdateSource w rng (σ, N, k) c).2.1,
                  (UpdateSource w rng (σ, N, k) c).2.2)).1.isBurning
                (GetTileIndex w c) = true := hiso
            exact absurd (hiso'.symm.trans hflag) (by simp)
          · intro hcond
            exact ihNmono c (husMem.mpr hcond)
      · have hne : GetTileIndex w c ≠ GetTileIndex w src := hne_of_memR' c hc'
        have htr := husTrack (GetTileIndex w c) hne
        have hper := ihPerC c hc'
        constructor
        · rw [hper.1, htr.2]
          have : (UpdateSource w rng (σ, N, k) src).1.burnTime = σ.burnTime := husT
          rw [this]
        · rw [hper.2, htr.2]
          have : (UpdateSource w rng (σ, N, k) src).1.burnTime = σ.burnTime := husT
          rw [this]
    · intro c hc
      exact ihNmono c (husNmono c hc)
    · intro i hbur
      exact ihHmono i (husHmono i hbur)

theorem MidInv_of_SimInv (w : World) (s : SimState) (hinv : SimInv w s) :
    MidInv w s.burningTiles { s with currentTime := s.currentTime + 1 } [] :=
  { len_isBurning := hinv.len_isBurning
    len_hasBurned := hinv.len_hasBurned
    len_burningFor := hinv.len_burningFor
    len_burnTime := hinv.len_burnTime
    nodupR := hinv.nodup
    nodupN := List.nodup_nil
    boundsR := hinv.bounds
    boundsN := fun c hc => absurd hc (List.not_mem_nil c)
    R_burning := hinv.burning_flag
    R_not_burned := hinv.burning_not_burned
    R_time := hinv.burning_time
    R_not_in_N := fun c _ => List.not_mem_nil c
    N_time := fun c hc => absurd hc (List.not_mem_nil c)
    N_iff := fun x hx y hy hR =>
      iff_of_false (List.not_mem_nil _)
        (fun h => absurd ((hinv.not_burning x hx y hy hR).symm.trans h) (by simp))
    burned_not_burning := hinv.burned_not_burning
    idle_zero := hinv.idle_zero
    bT_bounds := hinv.bT_bounds
    bF_nonneg := hinv.bF_nonneg }

theorem Update_inv (w : World) (rng : ℕ → ℚ) (s : SimState) (hinv : SimInv w s) :
    SimInv w (Update w rng s) ∧
    (Update w rng s).currentTime = s.currentTime + 1 ∧
    (Update w rng s).burnTime = s.burnTime ∧
    (Update w rng s).windSpeed = s.windSpeed ∧
    (Update w rng s).windDirection = s.windDirection ∧
    (Update w rng s).prohibitedTiles = s.prohibitedTiles ∧
    (∀ x < w.width, ∀ y < w.depth,
      ((x, y) ∈ (Update w rng s).burningTiles ↔
        getB (Update w rng s).isBurning (GetTileIndex w (x, y)) = true)) ∧
    (∀ c ∈ s.burningTiles,
      (getB (Update w rng s).hasBurned (GetTileIndex w c) = true ↔
        getI s.burnTime (GetTileIndex w c) ≤ getI s.burningFor (GetTileIndex w c) + 1) ∧
      (c ∈ (Update w rng s).burningTiles ↔
        getI s.burningFor (GetTileIndex w c) + 1 < getI s.burnTime (GetTileIndex w c))) ∧
    (∀ i, (∀ c ∈ s.burningTiles, GetTileIndex w c ≠ i) →
      getB (Update w rng s).hasBurned i = getB s.hasBurned i ∧
      getI (Update w rng s).burningFor i = getI s.burningFor i) ∧
    (∀ i, getB s.hasBurned i = true → getB (Update w rng s).hasBurned i = true) := by
  obtain ⟨hmid, hT, hWS, hWD, hCT, hBTl, hP, hTrack, hPerC, _, hHmono⟩ :=
    UpdateLoop_inv w rng s.burningTiles { s with currentTime := s.currentTime + 1 } [] 0
      (MidInv_of_SimInv w s hinv)
  have hupd : Update w rng s =
      { (UpdateLoop w rng s.burningTiles
          ({ s with currentTime := s.currentTime + 1 }, [], 0)).1 with
        burningTiles := (UpdateLoop w rng s.burningTiles
          ({ s with currentTime := s.currentTime + 1 }, [], 0)).2.1 } := rfl
  rw [hupd]
  refine ⟨?_, hCT, hT, hWS, hWD, hP, ?_, ?_, ?_, ?_⟩
  · refine
      { len_isBurning := hmid.len_isBurning
        len_hasBurned := hmid.len_hasBurned
        len_burningFor := hmid.len_burningFor
        len_burnTime := hmid.len_burnTime
        nodup := hmid.nodupN
        bounds := hmid.boundsN
        burning_flag := ?_
        burning_not_burned := ?_
        burning_time := hmid.N_time
        not_burning := ?_
        idle_zero := hmid.idle_zero
        burned_not_burning := hmid.burned_not_burning
        bT_bounds := hmid.bT_bounds
        bF_nonneg := hmid.bF_nonneg }
    · intro c hc
      have hb := hmid.boundsN c hc
      have hc' : (c.1, c.2) ∈ (UpdateLoop w rng s.burningTiles
          ({ s with currentTime := s.currentTime + 1 }, [], 0)).2.1 := hc
      exact (hmid.N_iff c.1 hb.1 c.2 hb.2 (List.not_mem_nil _)).mp hc'
    · intro c hc
      have hb := hmid.boundsN c hc
      have hflag : getB (UpdateLoop w rng s.burningTiles
          ({ s with currentTime := s.currentTime + 1 }, [], 0)).1.isBurning
          (GetTileIndex w c) = true := by
        have hc' : (c.1, c.2) ∈ (UpdateLoop w rng s.burningTiles
            ({ s with currentTime := s.currentTime + 1 }, [], 0)).2.1 := hc
        exact (hmid.N_iff c.1 hb.1 c.2 hb.2 (List.not_mem_nil _)).mp hc'
      cases hbu : getB (UpdateLoop w rng s.burningTiles
          ({ s with currentTime := s.currentTime + 1 }, [], 0)).1.hasBurned
          (GetTileIndex w c) with
      | false => rfl
      | true =>
        have := hmid.burned_not_burning _ (GetTileIndex_lt hb) hbu
        exact absurd (hflag.symm.trans this) (by simp)
    · intro x hx y hy hmem
      have := hmid.N_iff x hx y hy (List.not_mem_nil _)
      cases hbu : getB (UpdateLoop w rng s.burningTiles
          ({ s with currentTime := s.currentTime + 1 }, [], 0)).1.isBurning
          (GetTileIndex w (x, y)) with
      | false => rfl
      | true => exact absurd (this.mpr hbu) hmem
  · intro x hx y hy
    exact (hmid.N_iff x hx y hy (List.not_mem_nil _))
  · exact hPerC
  · exact hTrack
  · exact hHmono

theorem Update_of_ended (w : World) (rng : ℕ → ℚ) (s : SimState)
    (h : s.burningTiles = []) :
    (Update w rng s).burningTiles = [] ∧
    (Update w rng s).isBurning = s.isBurning ∧
    (Update w rng s).hasBurned = s.hasBurned ∧
    (Update w rng s).burningFor = s.burningFor ∧
    (Update w rng s).burnTime = s.burnTime ∧
    (Update w rng s).currentTime = s.currentTime + 1 ∧
    (Update w rng s).windSpeed = s.windSpeed ∧
    (Update w rng s).windDirection = s.windDirection ∧
    (Update w rng s).prohibitedTiles = s.prohibitedTiles ∧
    (Update w rng s).changesOverTime = s.changesOverTime := by
  unfold Update
  dsimp only
  rw [h]
  exact ⟨rfl, rfl, rfl, rfl, rfl, rfl, rfl, rfl, rfl, rfl⟩

/-- Termination measure for `Update`: total remaining burn potential.  A
burned tile contributes 0, any other tile `burnTime - burningFor`. -/
def fireMeasure (w : World) (s : SimState) : ℤ :=
  ((List.range (w.width * w.depth)).map fun i =>
    if getB s.hasBurned i then 0 else getI s.burnTime i - getI s.burningFor i).sum

theorem fireMeasure_congr (w : World) {s₁ s₂ : SimState}
    (hB : s₁.hasBurned = s₂.hasBurned) (hT : s₁.burnTime = s₂.burnTime)
    (hF : s₁.burningFor = s₂.burningFor) : fireMeasure w s₁ = fireMeasure w s₂ := by
  unfold fireMeasure
  rw [hB, hT, hF]

theorem sum_map_range_update (F G : ℕ → ℤ) (ti : ℕ) :
    ∀ L : ℕ, ti < L → (∀ i, i ≠ ti → G i = F i) →
      ((List.range L).map G).sum = ((List.range L).map F).sum + (G ti - F ti) := by
  intro L
  induction L with
  | zero => intro h; omega
  | succ n ih =>
    intro hti h
    rw [List.range_succ, List.map_append, List.map_append, List.sum_append, List.sum_append]
    by_cases hn : ti = n
    · subst hn
      have hmapeq : (List.range ti).map G = (List.range ti).map F :=
        List.map_congr_left fun i hi => h i (by
          have := List.mem_range.mp hi
          omega)
      rw [hmapeq]
      simp only [List.map_cons, List.map_nil, List.sum_cons, List.sum_nil]
      ring
    · have hti' : ti < n := by omega
      rw [ih hti' h]
      have hGF : G n = F n := h n (fun he => hn he.symm)
      simp only [List.map_cons, List.map_nil, List.sum_cons, List.sum_nil, hGF]
      ring

theorem UpdateSource_measure (w : World) (rng : ℕ → ℚ) (src : ℕ × ℕ)
    (R' : List (ℕ × ℕ)) (σ : SimState) (N : List (ℕ × ℕ)) (k : ℕ)
    (hmid : MidInv w (src :: R') σ N) :
    fireMeasure w (UpdateSource w rng (σ, N, k) src).1 ≤ fireMeasure w σ - 1 := by
  have hsrc : InBounds w src := hmid.boundsR src (List.mem_cons_self src R')
  have hti_lt : GetTileIndex w src < w.width * w.depth := GetTileIndex_lt hsrc
  have hnb : getB σ.hasBurned (GetTileIndex w src) = false :=
    hmid.R_not_burned src (List.mem_cons_self src R')
  have htime : getI σ.burningFor (GetTileIndex w src) < getI σ.burnTime (GetTileIndex w src) :=
    hmid.R_time src (List.mem_cons_self src R')
  have hfields := igniteNeighbors_fields w rng src (GetNeighborTiles w src) σ N k
  have hfB := hfields.1
  have hfF := hfields.2.1
  have hfT := hfields.2.2.1
  have hmig : fireMeasure w (igniteNeighbors w rng src (GetNeighborTiles w src) (σ, N, k)).1 =
      fireMeasure w σ := fireMeasure_congr w hfB hfT hfF
  have hlenH : GetTileIndex w src < σ.hasBurned.length := by
    rw [hmid.len_hasBurned]; exact hti_lt
  have hlenF : GetTileIndex w src < σ.burningFor.length := by
    rw [hmid.len_burningFor]; exact hti_lt
  simp only [UpdateSource]
  split_ifs with hcond
  · -- burn out: the contribution of src drops from burnTime - burningFor (≥ 1) to 0
    have hkey := sum_map_range_update
      (fun i => if getB (igniteNeighbors w rng src (GetNeighborTiles w src) (σ, N, k)).1.hasBurned i
        then 0
        else getI (igniteNeighbors w rng src (GetNeighborTiles w src) (σ, N, k)).1.burnTime i -
          getI (igniteNeighbors w rng src (GetNeighborTiles w src) (σ, N, k)).1.burningFor i)
      (fun i => if getB (setBool (igniteNeighbors w rng src (GetNeighborTiles w src)
          (σ, N, k)).1.hasBurned (GetTileIndex w src) true) i
        then 0
        else getI (igniteNeighbors w rng src (GetNeighborTiles w src) (σ, N, k)).1.burnTime i -
          getI (igniteNeighbors w rng src (GetNeighborTiles w src) (σ, N, k)).1.burningFor i)
      (GetTileIndex w src) (w.width * w.depth) hti_lt ?_
    · have hG : getB (setBool (igniteNeighbors w rng src (GetNeighborTiles w src)
          (σ, N, k)).1.hasBurned (GetTileIndex w src) true) (GetTileIndex w src) = true := by
        unfold setBool
        refine getB_set_self true ?_
        rw [hfB]
        exact hlenH
      have hF' : getB (igniteNeighbors w rng src (GetNeighborTiles w src)
          (σ, N, k)).1.hasBurned (GetTileIndex w src) = false := by
        rw [hfB]; exact hnb
      show (((List.range (w.width * w.depth)).map fun i => _).sum : ℤ) ≤ _
      calc (((List.range (w.width * w.depth)).map fun i =>
            if getB (setBool (igniteNeighbors w rng src (GetNeighborTiles w src)
                (σ, N, k)).1.hasBurned (GetTileIndex w src) true) i
            then 0
            else getI (igniteNeighbors w rng src (GetNeighborTiles w src) (σ, N, k)).1.burnTime i -
              getI (igniteNeighbors w rng src (GetNeighborTiles w src) (σ, N, k)).1.burningFor i).sum : ℤ)
          = fireMeasure w (igniteNeighbors w rng src (GetNeighborTiles w src) (σ, N, k)).1 +
            ((if getB (setBool (igniteNeighbors w rng src (GetNeighborTiles w src)
                (σ, N, k)).1.hasBurned (GetTileIndex w src) true) (GetTileIndex w src)
              then 0
              else getI (igniteNeighbors w rng src (GetNeighborTiles w src)
                (σ, N, k)).1.burnTime (GetTileIndex w src) -
                getI (igniteNeighbors w rng src (GetNeighborTiles w src)
                  (σ, N, k)).1.burningFor (GetTileIndex w src)) -
              (if getB (igniteNeighbors w rng src (GetNeighborTiles w src)
                  (σ, N, k)).1.hasBurned (GetTileIndex w src)
                then 0
                else getI (igniteNeighbors w rng src (GetNeighborTiles w src)
                  (σ, N, k)).1.burnTime (GetTileIndex w src) -
                  getI (igniteNeighbors w rng src (GetNeighborTiles w src)
                    (σ, N, k)).1.burningFor (GetTileIndex w src))) := hkey
        _ ≤ fireMeasure w σ - 1 := by
            rw [hmig, hG, hF']
            simp only [if_true, if_false, Bool.false_eq_true]
            have h1 : getI (igniteNeighbors w rng src (GetNeighborTiles w src)
                (σ, N, k)).1.burnTime (GetTileIndex w src) =
                getI σ.burnTime (GetTileIndex w src) := by rw [hfT]
            have h2 : getI (igniteNeighbors w rng src (GetNeighborTiles w src)
                (σ, N, k)).1.burningFor (GetTileIndex w src) =
                getI σ.burningFor (GetTileIndex w src) := by rw [hfF]
            rw [h1, h2]
            omega
    · intro i hi
      dsimp only
      have : getB (setBool (igniteNeighbors w rng src (GetNeighborTiles w src)
          (σ, N, k)).1.hasBurned (GetTileIndex w src) true) i =
          getB (igniteNeighbors w rng src (GetNeighborTiles w src) (σ, N, k)).1.hasBurned i := by
        unfold setBool
        exact getB_set_ne _ _ _ _ (fun he => hi he.symm)
      rw [this]
  · -- still burning: the contribution of src drops by exactly 1
    rw [hfF, hfT] at hcond
    have hbF0 : 0 ≤ getI σ.burningFor (GetTileIndex w src) := hmid.bF_nonneg _ hti_lt
    have hbT5 : getI σ.burnTime (GetTileIndex w src) ≤ 5 := (hmid.bT_bounds _ hti_lt).2
    have hclamp : clampI 0 5 (getI σ.burningFor (GetTileIndex w src) + 1) =
        getI σ.burningFor (GetTileIndex w src) + 1 := by
      unfold clampI
      omega
    have hsetF : getI (setClampedI (igniteNeighbors w rng src (GetNeighborTiles w src)
        (σ, N, k)).1.burningFor (GetTileIndex w src) 0 5
        (getI (igniteNeighbors w rng src (GetNeighborTiles w src) (σ, N, k)).1.burningFor
          (GetTileIndex w src) + 1)) (GetTileIndex w src) =
        getI σ.burningFor (GetTileIndex w src) + 1 := by
      unfold setClampedI
      rw [hfF, hclamp]
      exact getI_set_self _ _ _ hlenF
    have hkey := sum_map_range_update
      (fun i => if getB (igniteNeighbors w rng src (GetNeighborTiles w src) (σ, N, k)).1.hasBurned i
        then 0
        else getI (igniteNeighbors w rng src (GetNeighborTiles w src) (σ, N, k)).1.burnTime i -
          getI (igniteNeighbors w rng src (GetNeighborTiles w src) (σ, N, k)).1.burningFor i)
      (fun i => if getB (igniteNeighbors w rng src (GetNeighborTiles w src) (σ, N, k)).1.hasBurned i
        then 0
        else getI (igniteNeighbors w rng src (GetNeighborTiles w src) (σ, N, k)).1.burnTime i -
          getI (setClampedI (igniteNeighbors w rng src (GetNeighborTiles w src)
            (σ, N, k)).1.burningFor (GetTileIndex w src) 0 5
            (getI (igniteNeighbors w rng src (GetNeighborTiles w src) (σ, N, k)).1.burningFor
              (GetTileIndex w src) + 1)) i)
      (GetTileIndex w src) (w.width * w.depth) hti_lt ?_
    · have hF' : getB (igniteNeighbors w rng src (GetNeighborTiles w src)
          (σ, N, k)).1.hasBurned (GetTileIndex w src) = false := by
        rw [hfB]; exact hnb
      calc (((List.range (w.width * w.depth)).map fun i =>
            if getB (igniteNeighbors w rng src (GetNeighborTiles w src) (σ, N, k)).1.hasBurned i
            then 0
            else getI (igniteNeighbors w rng src (GetNeighborTiles w src) (σ, N, k)).1.burnTime i -
              getI (setClampedI (igniteNeighbors w rng src (GetNeighborTiles w src)
                (σ, N, k)).1.burningFor (GetTileIndex w src) 0 5
                (getI (igniteNeighbors w rng src (GetNeighborTiles w src)
                  (σ, N, k)).1.burningFor (GetTileIndex w src) + 1)) i).sum : ℤ)
          = fireMeasure w (igniteNeighbors w rng src (GetNeighborTiles w src) (σ, N, k)).1 +
            ((if getB (igniteNeighbors w rng src (GetNeighborTiles w src)
                  (σ, N, k)).1.hasBurned (GetTileIndex w src)
              then 0
              else getI (igniteNeighbors w rng src (GetNeighborTiles w src)
                (σ, N, k)).1.burnTime (GetTileIndex w src) -
                getI (setClampedI (igniteNeighbors w rng src (GetNeighborTiles w src)
                  (σ, N, k)).1.burningFor (GetTileIndex w src) 0 5
                  (getI (igniteNeighbors w rng src (GetNeighborTiles w src)
                    (σ, N, k)).1.burningFor (GetTileIndex w src) + 1)) (GetTileIndex w src)) -
              (if getB (igniteNeighbors w rng src (GetNeighborTiles w src)
                  (σ, N, k)).1.hasBurned (GetTileIndex w src)
                then 0
                else getI (igniteNeighbors w rng src (GetNeighborTiles w src)
                  (σ, N, k)).1.burnTime (GetTileIndex w src) -
                  getI (igniteNeighbors w rng src (GetNeighborTiles w src)
                    (σ, N, k)).1.burningFor (GetTileIndex w src))) := hkey
        _ ≤ fireMeasure w σ - 1 := by
            rw [hmig, hF']
            simp only [Bool.false_eq_true, if_false]
            rw [hsetF]
            have h1 : getI (igniteNeighbors w rng src (GetNeighborTiles w src)
                (σ, N, k)).1.burnTime (GetTileIndex w src) =
                getI σ.burnTime (GetTileIndex w src) := by rw [hfT]
            have h2 : getI (igniteNeighbors w rng src (GetNeighborTiles w src)
                (σ, N, k)).1.burningFor (GetTileIndex w src) =
                getI σ.burningFor (GetTileIndex w src) := by rw [hfF]
            rw [h1, h2]
            omega
    · intro i hi
      dsimp only
      have : getI (setClampedI (igniteNeighbors w rng src (GetNeighborTiles w src)
          (σ, N, k)).1.burningFor (GetTileIndex w src) 0 5
          (getI (igniteNeighbors w rng src (GetNeighborTiles w src) (σ, N, k)).1.burningFor
            (GetTileIndex w src) + 1)) i =
          getI (igniteNeighbors w rng src (GetNeighborTiles w src) (σ, N, k)).1.burningFor i := by
        unfold setClampedI
        exact getI_set_ne _ _ _ _ (fun he => hi he.symm)
      rw [this]

theorem UpdateLoop_measure (w : World) (rng : ℕ → ℚ) :
    ∀ (R : List (ℕ × ℕ)) (σ : SimState) (N : List (ℕ × ℕ)) (k : ℕ), MidInv w R σ N →
      fireMeasure w (UpdateLoop w rng R (σ, N, k)).1 ≤ fireMeasure w σ - R.length
  | [], σ, N, k, _ => by
    simp [UpdateLoop]
  | src :: R', σ, N, k, hmid => by
    have h1 := UpdateSource_measure w rng src R' σ N k hmid
    have hmid' := (UpdateSource_inv w rng src R' σ N k hmid).1
    have h2 := UpdateLoop_measure w rng R' (UpdateSource w rng (σ, N, k) src).1
      (UpdateSource w rng (σ, N, k) src).2.1 (UpdateSource w rng (σ, N, k) src).2.2 hmid'
    have hloop_eq : UpdateLoop w rng (src :: R') (σ, N, k) =
        UpdateLoop w rng R' ((UpdateSource w rng (σ, N, k) src).1,
          (UpdateSource w rng (σ, N, k) src).2.1, (UpdateSource w rng (σ, N, k) src).2.2) := rfl
    rw [hloop_eq]
    have hlen : ((src :: R').length : ℤ) = (R'.length : ℤ) + 1 := by
      simp
    omega

theorem exists_coord_of_lt {w : World} {i : ℕ} (hi : i < w.width * w.depth) :
    ∃ c : ℕ × ℕ, InBounds w c ∧ GetTileIndex w c = i := by
  rcases Nat.eq_zero_or_pos w.depth with h0 | hd
  · rw [h0] at hi
    omega
  refine ⟨(i / w.depth, i % w.depth), ⟨?_, Nat.mod_lt i hd⟩, ?_⟩
  · exact (Nat.div_lt_iff_lt_mul hd).mpr hi
  · show i / w.depth * w.depth + i % w.depth = i
    have h1 := Nat.div_add_mod i w.depth
    have h2 : i / w.depth * w.depth = w.depth * (i / w.depth) := Nat.mul_comm _ _
    omega

theorem fireMeasure_term_nonneg (w : World) (s : SimState) (hinv : SimInv w s)
    (i : ℕ) (hi : i < w.width * w.depth) :
    0 ≤ if getB s.hasBurned i then 0 else getI s.burnTime i - getI s.burningFor i := by
  by_cases hb : getB s.hasBurned i
  · rw [if_pos hb]
  · rw [if_neg hb]
    obtain ⟨c, hcb, hceq⟩ := exists_coord_of_lt hi
    have hbt := (hinv.bT_bounds i hi).1
    cases hflag : getB s.isBurning i with
    | true =>
      have hcmem : c ∈ s.burningTiles := by
        by_contra hnot
        have hc' : (c.1, c.2) ∉ s.burningTiles := hnot
        have := hinv.not_burning c.1 hcb.1 c.2 hcb.2 hc'
        rw [hceq] at this
        exact absurd (hflag.symm.trans this) (by simp)
      have := hinv.burning_time c hcmem
      rw [hceq] at this
      omega
    | false =>
      have := hinv.idle_zero i hi hflag (Bool.not_eq_true _ ▸ eq_false_of_ne_true hb)
      omega

theorem fireMeasure_nonneg (w : World) (s : SimState) (hinv : SimInv w s) :
    0 ≤ fireMeasure w s := by
  unfold fireMeasure
  apply List.sum_nonneg
  intro x hx
  rcases List.mem_map.mp hx with ⟨i, hi, rfl⟩
  exact fireMeasure_term_nonneg w s hinv i (List.mem_range.mp hi)

theorem fireMeasure_pos (w : World) (s : SimState) (hinv : SimInv w s)
    (hne : s.burningTiles ≠ []) : 1 ≤ fireMeasure w s := by
  obtain ⟨c, hc⟩ := List.exists_mem_of_ne_nil _ hne
  have hcb := hinv.bounds c hc
  have hlt := GetTileIndex_lt hcb
  have hterm : (1 : ℤ) ≤ if getB s.hasBurned (GetTileIndex w c) then 0
      else getI s.burnTime (GetTileIndex w c) - getI s.burningFor (GetTileIndex w c) := by
    rw [if_neg (by rw [hinv.burning_not_burned c hc]; simp)]
    have := hinv.burning_time c hc
    omega
  have hmem : (if getB s.hasBurned (GetTileIndex w c) then 0
      else getI s.burnTime (GetTileIndex w c) - getI s.burningFor (GetTileIndex w c)) ∈
      (List.range (w.width * w.depth)).map fun i =>
        if getB s.hasBurned i then 0 else getI s.burnTime i - getI s.burningFor i :=
    List.mem_map_of_mem _ (List.mem_range.mpr hlt)
  have hsingle := List.single_le_sum (l := (List.range (w.width * w.depth)).map fun i =>
      if getB s.hasBurned i then 0 else getI s.burnTime i - getI s.burningFor i)
    (fun x hx => by
      rcases List.mem_map.mp hx with ⟨i, hi, rfl⟩
      exact fireMeasure_term_nonneg w s hinv i (List.mem_range.mp hi)) _ hmem
  unfold fireMeasure
  omega

theorem Update_measure (w : World) (rng : ℕ → ℚ) (s : SimState) (hinv : SimInv w s)
    (hne : s.burningTiles ≠ []) :
    fireMeasure w (Update w rng s) ≤ fireMeasure w s - 1 := by
  have hmid := MidInv_of_SimInv w s hinv
  have h := UpdateLoop_measure w rng s.burningTiles
    { s with currentTime := s.currentTime + 1 } [] 0 hmid
  have hm1 : fireMeasure w (Update w rng s) =
      fireMeasure w (UpdateLoop w rng s.burningTiles
        ({ s with currentTime := s.currentTime + 1 }, [], 0)).1 :=
    fireMeasure_congr w rfl rfl rfl
  have hm2 : fireMeasure w { s with currentTime := s.currentTime + 1 } = fireMeasure w s :=
    fireMeasure_congr w rfl rfl rfl
  have hlen : 1 ≤ (s.burningTiles).length := List.length_pos.mpr hne
  rw [hm1]
  rw [hm2] at h
  have : (1 : ℤ) ≤ (s.burningTiles.length : ℤ) := by exact_mod_cast hlen
  omega

theorem SimInv_of_ended (w : World) (rng : ℕ → ℚ) (s : SimState) (hinv : SimInv w s)
    (h : s.burningTiles = []) : SimInv w (Update w rng s) := by
  obtain ⟨hBT, hIB, hHB, hBF, hT, _, _, _, _, _⟩ := Update_of_ended w rng s h
  exact
    { len_isBurning := by rw [hIB]; exact hinv.len_isBurning
      len_hasBurned := by rw [hHB]; exact hinv.len_hasBurned
      len_burningFor := by rw [hBF]; exact hinv.len_burningFor
      len_burnTime := by rw [hT]; exact hinv.len_burnTime
      nodup := by rw [hBT]; exact List.nodup_nil
      bounds := by rw [hBT]; exact fun c hc => absurd hc (List.not_mem_nil c)
      burning_flag := by rw [hBT]; exact fun c hc => absurd hc (List.not_mem_nil c)
      burning_not_burned := by rw [hBT]; exact fun c hc => absurd hc (List.not_mem_nil c)
      burning_time := by rw [hBT]; exact fun c hc => absurd hc (List.not_mem_nil c)
      not_burning := fun x hx y hy _ => by
        rw [hIB]
        refine hinv.not_burning x hx y hy ?_
        rw [h]
        exact List.not_mem_nil _
      idle_zero := fun i hi => by rw [hIB, hHB, hBF]; exact hinv.idle_zero i hi
      burned_not_burning := fun i hi => by rw [hIB, hHB]; exact hinv.burned_not_burning i hi
      bT_bounds := fun i hi => by rw [hT]; exact hinv.bT_bounds i hi
      bF_nonneg := fun i hi => by rw [hBF]; exact hinv.bF_nonneg i hi }

theorem RunUpdates_ended (w : World) :
    ∀ (k : ℕ) (rngs : ℕ → ℕ → ℚ) (s : SimState), s.burningTiles = [] →
      (RunUpdates w rngs k s).burningTiles = [] ∧
      (RunUpdates w rngs k s).isBurning = s.isBurning ∧
      (RunUpdates w rngs k s).hasBurned = s.hasBurned ∧
      (RunUpdates w rngs k s).burningFor = s.burningFor
  | 0, _, _, h => ⟨h, rfl, rfl, rfl⟩
  | k + 1, rngs, s, h => by
    obtain ⟨hBT, hIB, hHB, hBF, _, _, _, _, _, _⟩ := Update_of_ended w (rngs 0) s h
    have ih := RunUpdates_ended w k (fun i => rngs (i + 1)) (Update w (rngs 0) s) hBT
    exact ⟨ih.1, ih.2.1.trans hIB, ih.2.2.1.trans hHB, ih.2.2.2.trans hBF⟩

theorem RunUpdates_ended_SimInv (w : World) :
    ∀ (k : ℕ) (rngs : ℕ → ℕ → ℚ) (s : SimState), SimInv w s → s.burningTiles = [] →
      SimInv w (RunUpdates w rngs k s)
  | 0, _, _, hinv, _ => hinv
  | k + 1, rngs, s, hinv, h =>
    RunUpdates_ended_SimInv w k (fun i => rngs (i + 1)) (Update w (rngs 0) s)
      (SimInv_of_ended w (rngs 0) s hinv h) (Update_of_ended w (rngs 0) s h).1

theorem run_ends (w : World) :
    ∀ (m : ℕ) (rngs : ℕ → ℕ → ℚ) (s : SimState), SimInv w s → fireMeasure w s ≤ m →
      (RunUpdates w rngs m s).burningTiles = [] ∧ SimInv w (RunUpdates w rngs m s)
  | 0, rngs, s, hinv, hm => by
    by_cases h : s.burningTiles = []
    · exact ⟨h, hinv⟩
    · have := fireMeasure_pos w s hinv h
      omega
  | m + 1, rngs, s, hinv, hm => by
    by_cases h : s.burningTiles = []
    · have hend := RunUpdates_ended w (m + 1) rngs s h
      exact ⟨hend.1, RunUpdates_ended_SimInv w (m + 1) rngs s hinv h⟩
    · have hinv' := (Update_inv w (rngs 0) s hinv).1
      have hdec := Update_measure w (rngs 0) s hinv h
      exact run_ends w m (fun i => rngs (i + 1)) (Update w (rngs 0) s) hinv'
        (by omega)

/-! ## Properties of the initial state (constructor + `Initialize`) -/

theorem getB_replicate (n i : ℕ) (v : Bool) :
    getB (List.replicate n v) i = if i < n then v else false := by
  rw [getB, List.getD_eq_getElem?_getD, List.getElem?_replicate]
  by_cases h : i < n
  · rw [if_pos h, if_pos h]
    rfl
  · rw [if_neg h, if_neg h]
    rfl

theorem getI_replicate (n i : ℕ) (v : ℤ) :
    getI (List.replicate n v) i = if i < n then v else 0 := by
  rw [getI, List.getD_eq_getElem?_getD, List.getElem?_replicate]
  by_cases h : i < n
  · rw [if_pos h, if_pos h]
    rfl
  · rw [if_neg h, if_neg h]
    rfl

theorem foldl_InitializeStep_burningTiles (w : World) :
    ∀ (l : List (ℕ × ℕ)) (s : SimState),
      (l.foldl (InitializeStep w) s).burningTiles = s.burningTiles ++ l
  | [], s => (List.append_nil _).symm
  | t :: ts, s => by
    rw [List.foldl_cons, foldl_InitializeStep_burningTiles w ts]
    show (s.burningTiles ++ [t]) ++ ts = _
    rw [List.append_assoc]
    rfl

theorem foldl_InitializeStep_fields (w : World) :
    ∀ (l : List (ℕ × ℕ)) (s : SimState),
      (l.foldl (InitializeStep w) s).hasBurned = s.hasBurned ∧
      (l.foldl (InitializeStep w) s).burningFor = s.burningFor ∧
      (l.foldl (InitializeStep w) s).burnTime = s.burnTime ∧
      (l.foldl (InitializeStep w) s).windSpeed = s.windSpeed ∧
      (l.foldl (InitializeStep w) s).windDirection = s.windDirection ∧
      (l.foldl (InitializeStep w) s).prohibitedTiles = s.prohibitedTiles ∧
      (l.foldl (InitializeStep w) s).isBurning.length = s.isBurning.length
  | [], s => ⟨rfl, rfl, rfl, rfl, rfl, rfl, rfl⟩
  | t :: ts, s => by
    have ih := foldl_InitializeStep_fields w ts (InitializeStep w s t)
    refine ⟨ih.1, ih.2.1, ih.2.2.1, ih.2.2.2.1, ih.2.2.2.2.1, ih.2.2.2.2.2.1,
      ih.2.2.2.2.2.2.trans ?_⟩
    show (setBool s.isBurning (GetTileIndex w t) true).length = _
    unfold setBool
    exact List.length_set _ _ _

theorem foldl_InitializeStep_isBurning_false (w : World) :
    ∀ (l : List (ℕ × ℕ)) (s : SimState) (i : ℕ), (∀ t ∈ l, GetTileIndex w t ≠ i) →
      getB (l.foldl (InitializeStep w) s).isBurning i = getB s.isBurning i
  | [], _, _, _ => rfl
  | t :: ts, s, i, h => by
    rw [List.foldl_cons, foldl_InitializeStep_isBurning_false w ts _ i
      (fun u hu => h u (List.mem_cons_of_mem t hu))]
    show getB (setBool s.isBurning (GetTileIndex w t) true) i = _
    unfold setBool
    exact getB_set_ne _ _ _ _ (h t (List.mem_cons_self t ts))

theorem foldl_InitializeStep_changes_sub (w : World) :
    ∀ (l : List (ℕ × ℕ)) (s : SimState) (c : ℕ × ℕ) (u : ℕ),
      c ∈ (l.foldl (InitializeStep w) s).changesOverTime u →
      c ∈ s.changesOverTime u ∨ c ∈ l
  | [], _, _, _, h => Or.inl h
  | t :: ts, s, c, u, h => by
    rcases foldl_InitializeStep_changes_sub w ts (InitializeStep w s t) c u h with h' | h'
    · have : c ∈ pushChange s.changesOverTime s.currentTime t u := h'
      unfold pushChange at this
      by_cases hu : u = s.currentTime
      · rw [if_pos hu] at this
        rcases List.mem_append.mp this with h2 | h2
        · exact Or.inl h2
        · rw [List.mem_singleton.mp h2]
          exact Or.inr (List.mem_cons_self t ts)
      · rw [if_neg hu] at this
        exact Or.inl this
    · exact Or.inr (List.mem_cons_of_mem t h')

theorem foldl_setClampedI_length (w : World) (f : ℕ × ℕ → ℤ) :
    ∀ (idx : List (ℕ × ℕ)) (l : List ℤ),
      (idx.foldl (fun l' ij => setClampedI l' (ij.1 * w.depth + ij.2) 0 5 (f ij)) l).length =
        l.length
  | [], _ => rfl
  | p :: ps, l => by
    rw [List.foldl_cons, foldl_setClampedI_length w f ps _]
    unfold setClampedI
    exact List.length_set _ _ _

theorem foldl_setClampedI_bounds (w : World) (f : ℕ × ℕ → ℤ) :
    ∀ (idx : List (ℕ × ℕ)) (l : List ℤ),
      (∀ i < l.length, 1 ≤ getI l i ∧ getI l i ≤ 5) →
      (∀ ij ∈ idx, 1 ≤ f ij ∧ f ij ≤ 5) →
      ∀ i < (idx.foldl (fun l' ij =>
          setClampedI l' (ij.1 * w.depth + ij.2) 0 5 (f ij)) l).length,
        1 ≤ getI (idx.foldl (fun l' ij =>
          setClampedI l' (ij.1 * w.depth + ij.2) 0 5 (f ij)) l) i ∧
        getI (idx.foldl (fun l' ij =>
          setClampedI l' (ij.1 * w.depth + ij.2) 0 5 (f ij)) l) i ≤ 5
  | [], _, hl, _ => hl
  | p :: ps, l, hl, hf => by
    rw [List.foldl_cons]
    refine foldl_setClampedI_bounds w f ps _ ?_ (fun ij hij => hf ij (List.mem_cons_of_mem p hij))
    intro i hi
    have hlen : (setClampedI l (p.1 * w.depth + p.2) 0 5 (f p)).length = l.length := by
      unfold setClampedI
      exact List.length_set _ _ _
    rw [hlen] at hi
    by_cases hieq : i = p.1 * w.depth + p.2
    · subst hieq
      have hsetv : getI (setClampedI l (p.1 * w.depth + p.2) 0 5 (f p))
          (p.1 * w.depth + p.2) = clampI 0 5 (f p) := by
        unfold setClampedI
        exact getI_set_self _ _ _ hi
      have hfp := hf p (List.mem_cons_self p ps)
      rw [hsetv]
      unfold clampI
      omega
    · have : getI (setClampedI l (p.1 * w.depth + p.2) 0 5 (f p)) i = getI l i := by
        unfold setClampedI
        exact getI_set_ne _ _ _ _ (fun he => hieq he.symm)
      rw [this]
      exact hl i hi

theorem burnTimeFor_bounds (v : VegetationType) : 1 ≤ burnTimeFor v ∧ burnTimeFor v ≤ 5 := by
  cases v <;> exact ⟨by decide, by decide⟩

theorem InitBurnTimes_length (w : World) :
    (InitBurnTimes w).length = w.width * w.depth := by
  unfold InitBurnTimes
  rw [foldl_setClampedI_length w (fun ij => burnTimeFor (w.tile ij.1 ij.2).vegetation)]
  exact List.length_replicate _ _

theorem InitBurnTimes_bounds (w : World) :
    ∀ i < w.width * w.depth, 1 ≤ getI (InitBurnTimes w) i ∧ getI (InitBurnTimes w) i ≤ 5 := by
  intro i hi
  unfold InitBurnTimes
  refine foldl_setClampedI_bounds w (fun ij => burnTimeFor (w.tile ij.1 ij.2).vegetation) _ _
    ?_ ?_ i ?_
  · intro j hj
    rw [List.length_replicate] at hj
    rw [getI_replicate, if_pos hj]
    omega
  · intro ij _
    exact burnTimeFor_bounds _
  · rw [foldl_setClampedI_length w (fun ij => burnTimeFor (w.tile ij.1 ij.2).vegetation),
      List.length_replicate]
    exact hi

theorem SimInv_initial (w : World) (tiles : List (ℕ × ℕ))
    (hnodup : tiles.Nodup) (hbounds : ∀ c ∈ tiles, InBounds w c) :
    SimInv w (Initialize w (mkFireSpreadSimulation w) tiles) := by
  have F := foldl_InitializeStep_fields w tiles
    { mkFireSpreadSimulation w with
      currentTime := 0, changesOverTime := fun _ => [], burningTiles := [] }
  have hB : (Initialize w (mkFireSpreadSimulation w) tiles).hasBurned =
      List.replicate (w.width * w.depth) false := F.1
  have hF : (Initialize w (mkFireSpreadSimulation w) tiles).burningFor =
      List.replicate (w.width * w.depth) 0 := F.2.1
  have hT : (Initialize w (mkFireSpreadSimulation w) tiles).burnTime = InitBurnTimes w :=
    F.2.2.1
  have hIBlen : (Initialize w (mkFireSpreadSimulation w) tiles).isBurning.length =
      w.width * w.depth := by
    have h : (Initialize w (mkFireSpreadSimulation w) tiles).isBurning.length =
        (List.replicate (w.width * w.depth) false).length := F.2.2.2.2.2.2
    rw [h, List.length_replicate]
  have hBT : (Initialize w (mkFireSpreadSimulation w) tiles).burningTiles = tiles := by
    have := foldl_InitializeStep_burningTiles w tiles
      { mkFireSpreadSimulation w with
        currentTime := 0, changesOverTime := fun _ => [], burningTiles := [] }
    exact this
  refine
    { len_isBurning := hIBlen
      len_hasBurned := by rw [hB]; exact List.length_replicate _ _
      len_burningFor := by rw [hF]; exact List.length_replicate _ _
      len_burnTime := by rw [hT]; exact InitBurnTimes_length w
      nodup := by rw [hBT]; exact hnodup
      bounds := by rw [hBT]; exact hbounds
      burning_flag := ?_
      burning_not_burned := ?_
      burning_time := ?_
      not_burning := ?_
      idle_zero := ?_
      burned_not_burning := ?_
      bT_bounds := ?_
      bF_nonneg := ?_ }
  · intro c hc
    rw [hBT] at hc
    refine (Initialize_marks_all w tiles _ c hc).2.2 ?_
    show GetTileIndex w c < (List.replicate (w.width * w.depth) false).length
    rw [List.length_replicate]
    exact GetTileIndex_lt (hbounds c hc)
  · intro c hc
    rw [hB, getB_replicate]
    split <;> rfl
  · intro c hc
    rw [hBT] at hc
    rw [hF, hT, getI_replicate, if_pos (GetTileIndex_lt (hbounds c hc))]
    have := (InitBurnTimes_bounds w _ (GetTileIndex_lt (hbounds c hc))).1
    omega
  · intro x hx y hy hmem
    rw [hBT] at hmem
    have hne : ∀ t ∈ tiles, GetTileIndex w t ≠ GetTileIndex w (x, y) := by
      intro t ht he
      exact hmem (GetTileIndex_inj (hbounds t ht) ⟨hx, hy⟩ he ▸ ht)
    have hval : getB (Initialize w (mkFireSpreadSimulation w) tiles).isBurning
        (GetTileIndex w (x, y)) =
        getB (List.replicate (w.width * w.depth) false) (GetTileIndex w (x, y)) :=
      foldl_InitializeStep_isBurning_false w tiles _ _ hne
    rw [hval, getB_replicate]
    split <;> rfl
  · intro i _ _ _
    rw [hF, getI_replicate]
    split <;> rfl
  · intro i _ hbu
    rw [hB, getB_replicate] at hbu
    split at hbu
    · exact absurd hbu (by simp)
    · exact absurd hbu (by simp)
  · intro i hi
    rw [hT]
    exact InitBurnTimes_bounds w i hi
  · intro i _
    rw [hF, getI_replicate]
    split <;> omega

/-- Sum of all `burnTime` entries — "the sum of all tiles' burnTime". -/
def totalBurnTime (s : SimState) : ℕ :=
  (s.burnTime.map Int.toNat).sum

theorem sum_range_getI : ∀ l : List ℤ,
    ((List.range l.length).map fun i => getI l i).sum = l.sum
  | [] => rfl
  | a :: l => by
    rw [List.length_cons, List.range_succ_eq_map, List.map_cons, List.sum_cons, List.map_map]
    have hcomp : ((fun i => getI (a :: l) i) ∘ Nat.succ) = fun i => getI l i := by
      funext i
      show getI (a :: l) (i + 1) = getI l i
      rw [getI, getI, List.getD_cons_succ]
    rw [hcomp, sum_range_getI l, List.sum_cons]
    rfl

theorem toNat_sum : ∀ l : List ℤ, (∀ x ∈ l, 0 ≤ x) → ((l.map Int.toNat).sum : ℤ) = l.sum
  | [], _ => rfl
  | a :: l, h => by
    rw [List.map_cons, List.sum_cons, List.sum_cons, Nat.cast_add,
      Int.toNat_of_nonneg (h a (List.mem_cons_self a l)),
      toNat_sum l (fun x hx => h x (List.mem_cons_of_mem a hx))]

theorem InitBurnTimes_mem_nonneg (w : World) : ∀ x ∈ InitBurnTimes w, 0 ≤ x := by
  intro x hx
  rcases List.mem_iff_getElem.mp hx with ⟨i, hilt, rfl⟩
  have hb := (InitBurnTimes_bounds w i (by rw [← InitBurnTimes_length w]; exact hilt)).1
  have hgd : getI (InitBurnTimes w) i = (InitBurnTimes w)[i] := by
    rw [getI, List.getD_eq_getElem?_getD, List.getElem?_eq_getElem hilt]
    rfl
  omega

theorem fireMeasure_initial (w : World) (tiles : List (ℕ × ℕ)) :
    fireMeasure w (Initialize w (mkFireSpreadSimulation w) tiles) =
      (totalBurnTime (Initialize w (mkFireSpreadSimulation w) tiles) : ℤ) := by
  have F := foldl_InitializeStep_fields w tiles
    { mkFireSpreadSimulation w with
      currentTime := 0, changesOverTime := fun _ => [], burningTiles := [] }
  have hB : (Initialize w (mkFireSpreadSimulation w) tiles).hasBurned =
      List.replicate (w.width * w.depth) false := F.1
  have hF : (Initialize w (mkFireSpreadSimulation w) tiles).burningFor =
      List.replicate (w.width * w.depth) 0 := F.2.1
  have hT : (Initialize w (mkFireSpreadSimulation w) tiles).burnTime = InitBurnTimes w :=
    F.2.2.1
  unfold fireMeasure totalBurnTime
  rw [hB, hF, hT]
  have hcong : ∀ i ∈ List.range (w.width * w.depth),
      (if getB (List.replicate (w.width * w.depth) false) i then 0
        else getI (InitBurnTimes w) i - getI (List.replicate (w.width * w.depth) (0 : ℤ)) i) =
      getI (InitBurnTimes w) i := by
    intro i hi
    have hi' := List.mem_range.mp hi
    simp [getB_replicate, getI_replicate, hi']
  rw [List.map_congr_left hcong,
    show w.width * w.depth = (InitBurnTimes w).length from (InitBurnTimes_length w).symm,
    sum_range_getI]
  exact (toNat_sum _ (InitBurnTimes_mem_nonneg w)).symm

theorem RunUpdates_add (w : World) :
    ∀ (a b : ℕ) (rngs : ℕ → ℕ → ℚ) (s : SimState),
      RunUpdates w rngs (a + b) s =
        RunUpdates w (fun i => rngs (i + a)) b (RunUpdates w rngs a s)
  | 0, b, rngs, s => by
    have h : (fun i => rngs (i + 0)) = rngs := by
      funext i
      rfl
    rw [h, Nat.zero_add]
    rfl
  | a + 1, b, rngs, s => by
    have h1 : a + 1 + b = (a + b) + 1 := by omega
    rw [h1]
    show RunUpdates w (fun i => rngs (i + 1)) (a + b) (Update w (rngs 0) s) = _
    rw [RunUpdates_add w a b (fun i => rngs (i + 1)) (Update w (rngs 0) s)]
    have h2 : (fun i => rngs (i + a + 1)) = fun i => rngs (i + (a + 1)) := by
      funext i
      have h3 : i + a + 1 = i + (a + 1) := by omega
      rw [h3]
    rw [h2]
    rfl

/-! ## Claim C2 (amended): water safety under positive draws -/

theorem stepProbSearch_zero (steps : ℤ) (hs : 1 ≤ steps) :
    ∀ (k : ℕ) (u : ℚ), 0 < u → u ≤ 1 →
      stepProbSearch 0 steps k (0, u) = (0, u / 2 ^ k)
  | 0, u, _, _ => by
    show ((0 : ℚ), u) = ((0 : ℚ), u / 2 ^ 0)
    rw [pow_zero, div_one]
  | k + 1, u, hu0, hu1 => by
    have hp0 : (0 : ℚ) < (0 + u) / 2 := by linarith
    have hcalc : (0 + u) / 2 * (1 - (1 - (0 + u) / 2) ^ steps) / ((0 + u) / 2) =
        1 - (1 - (0 + u) / 2) ^ steps := mul_div_cancel_left₀ _ (ne_of_gt hp0)
    have hn : ((steps.toNat : ℤ)) = steps := Int.toNat_of_nonneg (by linarith)
    have hpow : (1 - (0 + u) / 2) ^ steps < 1 := by
      rw [← hn, zpow_natCast]
      exact pow_lt_one₀ (by linarith) (by linarith) (by omega)
    have hstep : stepProbSearch 0 steps (k + 1) (0, u) =
        if 1 - (1 - (0 + u) / 2) ^ steps > 0 then
          stepProbSearch 0 steps k (0, (0 + u) / 2)
        else stepProbSearch 0 steps k ((0 + u) / 2, u) := by
      simp only [stepProbSearch]
      rw [hcalc]
    rw [hstep, if_pos (by linarith : (1 : ℚ) - (1 - (0 + u) / 2) ^ steps > 0),
      stepProbSearch_zero steps hs k ((0 + u) / 2) (by linarith) (by linarith)]
    have harith : (0 + u) / 2 / 2 ^ k = u / 2 ^ (k + 1) := by
      rw [zero_add, div_div, mul_comm, ← pow_succ]
    rw [harith]

/-- With `adjustedProbability = 0` the binary search never raises the lower
bound: every midpoint `p` satisfies `1 - (1-p)^steps > 0`, so the bracket
halves toward 0 and the returned midpoint is `2⁻¹⁰¹` — small, but not 0. -/
theorem GetStepProbability_zero (steps : ℤ) (hs : 1 ≤ steps) :
    GetStepProbability 0 steps = 1 / 2 ^ 101 := by
  have h := stepProbSearch_zero steps hs 100 1 one_pos le_rfl
  show ((stepProbSearch 0 steps 100 (0, 1)).1 + (stepProbSearch 0 steps 100 (0, 1)).2) / 2 =
    1 / 2 ^ 101
  rw [h]
  show ((0 : ℚ) + 1 / 2 ^ 100) / 2 = 1 / 2 ^ 101
  norm_num

/-- Toward a moisture-100 target the adjusted probability is 0
(`GetMoistureFactor` returns 0), so the per-step ignition probability is
exactly `2⁻¹⁰¹`. -/
theorem CalculateFireSpreadProbability_water (w : World) (s : SimState)
    (source target : ℕ × ℕ) (hm : (w.tile target.1 target.2).moisture = 100)
    (hbt : 1 ≤ getI s.burnTime (GetTileIndex w source)) :
    CalculateFireSpreadProbability w s source target = 1 / 2 ^ 101 := by
  have hmf : GetMoistureFactor (w.tile target.1 target.2).moisture 1 = 0 := by
    rw [hm]
    decide
  show GetStepProbability
      ((GetVegetationFactor (w.tile target.1 target.2).vegetation 1 +
          GetSlopeFactor (w.tile source.1 source.2) (w.tile target.1 target.2) 1) / 2 *
        GetMoistureFactor (w.tile target.1 target.2).moisture 1 *
        GetWindFactor s.windSpeed s.windDirection source target 1)
      (getI s.burnTime (GetTileIndex w source)) = 1 / 2 ^ 101
  rw [hmf, mul_zero, zero_mul]
  exact GetStepProbability_zero _ hbt

theorem igniteNeighbors_water (w : World) (rng : ℕ → ℚ) (src c : ℕ × ℕ)
    (hc : InBounds w c) (hm : (w.tile c.1 c.2).moisture = 100)
    (hrng : ∀ k, 1 / 2 ^ 101 ≤ rng k) :
    ∀ (nbs : List (ℕ × ℕ)) (σ : SimState) (N : List (ℕ × ℕ)) (k : ℕ),
      (∀ nb ∈ nbs, InBounds w nb) →
      1 ≤ getI σ.burnTime (GetTileIndex w src) →
      getB σ.isBurning (GetTileIndex w c) = false →
      (∀ t, c ∉ σ.changesOverTime t) → c ∉ N →
      getB (igniteNeighbors w rng src nbs (σ, N, k)).1.isBurning (GetTileIndex w c) = false ∧
      (∀ t, c ∉ (igniteNeighbors w rng src nbs (σ, N, k)).1.changesOverTime t) ∧
      c ∉ (igniteNeighbors w rng src nbs (σ, N, k)).2.1
  | [], σ, N, k, _, _, hB, hC, hN => ⟨hB, hC, hN⟩
  | nb :: rest, σ, N, k, hnbs, hbt, hB, hC, hN => by
    simp only [igniteNeighbors]
    split_ifs with h1 h2
    · exact igniteNeighbors_water w rng src c hc hm hrng rest σ N k
        (fun u hu => hnbs u (List.mem_cons_of_mem nb hu)) hbt hB hC hN
    · have hnbc : nb ≠ c := by
        intro he
        have hprob : CalculateFireSpreadProbability w σ src nb = 1 / 2 ^ 101 := by
          refine CalculateFireSpreadProbability_water w σ src nb ?_ hbt
          rw [he]
          exact hm
        simp only [TryIgniteTile] at h2
        rw [hprob] at h2
        exact absurd (of_decide_eq_true h2) (not_lt.mpr (hrng k))
      have hne2 : GetTileIndex w nb ≠ GetTileIndex w c := fun he =>
        hnbc (GetTileIndex_inj (hnbs nb (List.mem_cons_self nb rest)) hc he)
      refine igniteNeighbors_water w rng src c hc hm hrng rest
        { σ with
          isBurning := setBool σ.isBurning (GetTileIndex w nb) true
          changesOverTime := pushChange σ.changesOverTime σ.currentTime nb }
        (N ++ [nb]) (k + 1)
        (fun u hu => hnbs u (List.mem_cons_of_mem nb hu)) hbt ?_ ?_ ?_
      · show getB (setBool σ.isBurning (GetTileIndex w nb) true) (GetTileIndex w c) = false
        unfold setBool
        rw [getB_set_ne _ _ _ _ hne2]
        exact hB
      · intro t ht
        have ht' : c ∈ pushChange σ.changesOverTime σ.currentTime nb t := ht
        unfold pushChange at ht'
        by_cases hteq : t = σ.currentTime
        · rw [if_pos hteq] at ht'
          rcases List.mem_append.mp ht' with h3 | h3
          · exact hC t h3
          · exact hnbc (List.mem_singleton.mp h3).symm
        · rw [if_neg hteq] at ht'
          exact hC t ht'
      · intro hmem2
        rcases List.mem_append.mp hmem2 with h3 | h3
        · exact hN h3
        · exact hnbc (List.mem_singleton.mp h3).symm
    · exact igniteNeighbors_water w rng src c hc hm hrng rest σ N (k + 1)
        (fun u hu => hnbs u (List.mem_cons_of_mem nb hu)) hbt hB hC hN

theorem UpdateSource_water (w : World) (rng : ℕ → ℚ) (src c : ℕ × ℕ)
    (hc : InBounds w c) (hm : (w.tile c.1 c.2).moisture = 100)
    (hrng : ∀ k, 1 / 2 ^ 101 ≤ rng k)
    (σ : SimState) (N : List (ℕ × ℕ)) (k : ℕ)
    (hsrc : InBounds w src) (hsc : src ≠ c)
    (hbt : 1 ≤ getI σ.burnTime (GetTileIndex w src))
    (hB : getB σ.isBurning (GetTileIndex w c) = false)
    (hH : getB σ.hasBurned (GetTileIndex w c) = false)
    (hC : ∀ t, c ∉ σ.changesOverTime t) (hN : c ∉ N) :
    getB (UpdateSource w rng (σ, N, k) src).1.isBurning (GetTileIndex w c) = false ∧
    getB (UpdateSource w rng (σ, N, k) src).1.hasBurned (GetTileIndex w c) = false ∧
    (∀ t, c ∉ (UpdateSource w rng (σ, N, k) src).1.changesOverTime t) ∧
    c ∉ (UpdateSource w rng (σ, N, k) src).2.1 ∧
    (UpdateSource w rng (σ, N, k) src).1.burnTime = σ.burnTime := by
  have hig := igniteNeighbors_water w rng src c hc hm hrng (GetNeighborTiles w src) σ N k
    (GetNeighborTiles_inBounds w src) hbt hB hC hN
  have hfields := igniteNeighbors_fields w rng src (GetNeighborTiles w src) σ N k
  have hfB : (igniteNeighbors w rng src (GetNeighborTiles w src) (σ, N, k)).1.hasBurned =
      σ.hasBurned := hfields.1
  have hfT : (igniteNeighbors w rng src (GetNeighborTiles w src) (σ, N, k)).1.burnTime =
      σ.burnTime := hfields.2.2.1
  have hne : GetTileIndex w src ≠ GetTileIndex w c := fun he =>
    hsc (GetTileIndex_inj hsrc hc he)
  simp only [UpdateSource]
  split_ifs with hcond
  · refine ⟨?_, ?_, ?_, hig.2.2, hfT⟩
    · show getB (setBool
          (igniteNeighbors w rng src (GetNeighborTiles w src) (σ, N, k)).1.isBurning
          (GetTileIndex w src) false) (GetTileIndex w c) = false
      unfold setBool
      rw [getB_set_ne _ _ _ _ hne]
      exact hig.1
    · show getB (setBool
          (igniteNeighbors w rng src (GetNeighborTiles w src) (σ, N, k)).1.hasBurned
          (GetTileIndex w src) true) (GetTileIndex w c) = false
      unfold setBool
      rw [getB_set_ne _ _ _ _ hne, hfB]
      exact hH
    · intro t ht
      have ht' : c ∈ pushChange
          (igniteNeighbors w rng src (GetNeighborTiles w src) (σ, N, k)).1.changesOverTime
          (igniteNeighbors w rng src (GetNeighborTiles w src) (σ, N, k)).1.currentTime
          src t := ht
      unfold pushChange at ht'
      by_cases hteq :
          t = (igniteNeighbors w rng src (GetNeighborTiles w src) (σ, N, k)).1.currentTime
      · rw [if_pos hteq] at ht'
        rcases List.mem_append.mp ht' with h3 | h3
        · exact hig.2.1 t h3
        · exact hsc (List.mem_singleton.mp h3).symm
      · rw [if_neg hteq] at ht'
        exact hig.2.1 t ht'
  · refine ⟨hig.1, ?_, hig.2.1, ?_, hfT⟩
    · show getB (igniteNeighbors w rng src (GetNeighborTiles w src) (σ, N, k)).1.hasBurned
          (GetTileIndex w c) = false
      rw [hfB]
      exact hH
    · intro hmem2
      rcases List.mem_append.mp hmem2 with h3 | h3
      · exact hig.2.2 h3
      · exact hsc (List.mem_singleton.mp h3).symm

theorem UpdateLoop_water (w : World) (rng : ℕ → ℚ) (c : ℕ × ℕ)
    (hc : InBounds w c) (hm : (w.tile c.1 c.2).moisture = 100)
    (hrng : ∀ k, 1 / 2 ^ 101 ≤ rng k) :
    ∀ (R : List (ℕ × ℕ)) (σ : SimState) (N : List (ℕ × ℕ)) (k : ℕ),
      (∀ src ∈ R, InBounds w src ∧ src ≠ c ∧
        1 ≤ getI σ.burnTime (GetTileIndex w src)) →
      getB σ.isBurning (GetTileIndex w c) = false →
      getB σ.hasBurned (GetTileIndex w c) = false →
      (∀ t, c ∉ σ.changesOverTime t) → c ∉ N →
      getB (UpdateLoop w rng R (σ, N, k)).1.isBurning (GetTileIndex w c) = false ∧
      getB (UpdateLoop w rng R (σ, N, k)).1.hasBurned (GetTileIndex w c) = false ∧
      (∀ t, c ∉ (UpdateLoop w rng R (σ, N, k)).1.changesOverTime t) ∧
      c ∉ (UpdateLoop w rng R (σ, N, k)).2.1
  | [], σ, N, k, _, hB, hH, hC, hN => ⟨hB, hH, hC, hN⟩
  | src :: rest, σ, N, k, hR, hB, hH, hC, hN => by
    have hsrc := hR src (List.mem_cons_self src rest)
    have hus := UpdateSource_water w rng src c hc hm hrng σ N k hsrc.1 hsrc.2.1 hsrc.2.2
      hB hH hC hN
    have hR2 : ∀ s2 ∈ rest, InBounds w s2 ∧ s2 ≠ c ∧
        1 ≤ getI (UpdateSource w rng (σ, N, k) src).1.burnTime (GetTileIndex w s2) := by
      intro s2 hs2
      have h := hR s2 (List.mem_cons_of_mem src hs2)
      exact ⟨h.1, h.2.1, by rw [hus.2.2.2.2]; exact h.2.2⟩
    exact UpdateLoop_water w rng c hc hm hrng rest
      (UpdateSource w rng (σ, N, k) src).1
      (UpdateSource w rng (σ, N, k) src).2.1
      (UpdateSource w rng (σ, N, k) src).2.2
      hR2 hus.1 hus.2.1 hus.2.2.1 hus.2.2.2.1

theorem Update_water (w : World) (rng : ℕ → ℚ) (s : SimState) (c : ℕ × ℕ)
    (hc : InBounds w c) (hm : (w.tile c.1 c.2).moisture = 100)
    (hrng : ∀ k, 1 / 2 ^ 101 ≤ rng k) (hinv : SimInv w s)
    (hmem : c ∉ s.burningTiles)
    (hB : getB s.isBurning (GetTileIndex w c) = false)
    (hH : getB s.hasBurned (GetTileIndex w c) = false)
    (hC : ∀ t, c ∉ s.changesOverTime t) :
    c ∉ (Update w rng s).burningTiles ∧
    getB (Update w rng s).isBurning (GetTileIndex w c) = false ∧
    getB (Update w rng s).hasBurned (GetTileIndex w c) = false ∧
    ∀ t, c ∉ (Update w rng s).changesOverTime t := by
  have hR : ∀ src ∈ s.burningTiles, InBounds w src ∧ src ≠ c ∧
      1 ≤ getI ({ s with currentTime := s.currentTime + 1 } : SimState).burnTime
        (GetTileIndex w src) := by
    intro src hsrc
    refine ⟨hinv.bounds src hsrc, ?_, ?_⟩
    · intro he
      exact hmem (he ▸ hsrc)
    · exact (hinv.bT_bounds _ (GetTileIndex_lt (hinv.bounds src hsrc))).1
  have hloop := UpdateLoop_water w rng c hc hm hrng s.burningTiles
    { s with currentTime := s.currentTime + 1 } [] 0 hR hB hH hC (List.not_mem_nil c)
  exact ⟨hloop.2.2.2, hloop.1, hloop.2.1, hloop.2.2.1⟩

theorem RunUpdates_water (w : World) (c : ℕ × ℕ) (hc : InBounds w c)
    (hm : (w.tile c.1 c.2).moisture = 100) :
    ∀ (n : ℕ) (rngs : ℕ → ℕ → ℚ) (s : SimState),
      (∀ i k, 1 / 2 ^ 101 ≤ rngs i k) → SimInv w s →
      c ∉ s.burningTiles →
      getB s.isBurning (GetTileIndex w c) = false →
      getB s.hasBurned (GetTileIndex w c) = false →
      (∀ t, c ∉ s.changesOverTime t) →
      c ∉ (RunUpdates w rngs n s).burningTiles ∧
      getB (RunUpdates w rngs n s).isBurning (GetTileIndex w c) = false ∧
      getB (RunUpdates w rngs n s).hasBurned (GetTileIndex w c) = false ∧
      ∀ t, c ∉ (RunUpdates w rngs n s).changesOverTime t
  | 0, rngs, s, _, _, hmem, hB, hH, hC => ⟨hmem, hB, hH, hC⟩
  | n + 1, rngs, s, hrng, hinv, hmem, hB, hH, hC => by
    have hstep := Update_water w (rngs 0) s c hc hm (hrng 0) hinv hmem hB hH hC
    have hinv2 := (Update_inv w (rngs 0) s hinv).1
    exact RunUpdates_water w c hc hm n (fun i => rngs (i + 1)) (Update w (rngs 0) s)
      (fun i k => hrng (i + 1) k) hinv2 hstep.1 hstep.2.1 hstep.2.2.1 hstep.2.2.2

set_option maxRecDepth 4000 in
/-- Claim C2 (amended): a moisture-100 tile can only ignite on a random draw
below `GetStepProbability(0, burnTime) = 2⁻¹⁰¹` (the binary search returns
a positive midpoint even for adjusted probability 0, so draw 0 does ignite
water — see the counterexample).  Provided every draw is at least `2⁻¹⁰¹`
and the tile is not itself passed to `Initialize`, it never enters the
burning set, its `isBurning`/`hasBurned` flags stay false, and it never
appears in the change log or in any `GetLastChangedTiles()` result, across
an entire run of any number of `Update()` calls. -/
theorem c2_water_never_ignites_amended (w : World) (tiles : List (ℕ × ℕ))
    (rngs : ℕ → ℕ → ℚ) (c : ℕ × ℕ) (n : ℕ)
    (hc : InBounds w c) (hm : (w.tile c.1 c.2).moisture = 100)
    (hnodup : tiles.Nodup) (hbounds : ∀ t ∈ tiles, InBounds w t)
    (hstart : c ∉ tiles)
    (hrng : ∀ i k, 1 / 2 ^ 101 ≤ rngs i k) :
    c ∉ (RunUpdates w rngs n (Initialize w (mkFireSpreadSimulation w) tiles)).burningTiles ∧
    getB (RunUpdates w rngs n (Initialize w (mkFireSpreadSimulation w) tiles)).isBurning
      (GetTileIndex w c) = false ∧
    getB (RunUpdates w rngs n (Initialize w (mkFireSpreadSimulation w) tiles)).hasBurned
      (GetTileIndex w c) = false ∧
    (∀ t, c ∉ (RunUpdates w rngs n
      (Initialize w (mkFireSpreadSimulation w) tiles)).changesOverTime t) ∧
    c ∉ GetLastChangedTiles
      (RunUpdates w rngs n (Initialize w (mkFireSpreadSimulation w) tiles)) := by
  have hinv0 := SimInv_initial w tiles hnodup hbounds
  have hBT : (Initialize w (mkFireSpreadSimulation w) tiles).burningTiles = tiles :=
    foldl_InitializeStep_burningTiles w tiles
      { mkFireSpreadSimulation w with
        currentTime := 0, changesOverTime := fun _ => [], burningTiles := [] }
  have hne_tiles : ∀ t ∈ tiles, GetTileIndex w t ≠ GetTileIndex w c := by
    intro t ht he
    exact hstart (GetTileIndex_inj (hbounds t ht) hc he ▸ ht)
  have hB0 : getB (Initialize w (mkFireSpreadSimulation w) tiles).isBurning
      (GetTileIndex w c) = false := by
    have hval : getB (Initialize w (mkFireSpreadSimulation w) tiles).isBurning
        (GetTileIndex w c) =
        getB (List.replicate (w.width * w.depth) false) (GetTileIndex w c) :=
      foldl_InitializeStep_isBurning_false w tiles _ _ hne_tiles
    rw [hval, getB_replicate]
    split <;> rfl
  have hH0 : getB (Initialize w (mkFireSpreadSimulation w) tiles).hasBurned
      (GetTileIndex w c) = false := by
    have hHf : (Initialize w (mkFireSpreadSimulation w) tiles).hasBurned =
        List.replicate (w.width * w.depth) false :=
      (foldl_InitializeStep_fields w tiles
        { mkFireSpreadSimulation w with
          currentTime := 0, changesOverTime := fun _ => [], burningTiles := [] }).1
    rw [hHf, getB_replicate]
    split <;> rfl
  have hC0 : ∀ t, c ∉ (Initialize w (mkFireSpreadSimulation w) tiles).changesOverTime t := by
    intro t ht
    rcases foldl_InitializeStep_changes_sub w tiles
      { mkFireSpreadSimulation w with
        currentTime := 0, changesOverTime := fun _ => [], burningTiles := [] } c t ht with
      h | h
    · exact absurd h (List.not_mem_nil c)
    · exact hstart h
  have hmem0 : c ∉ (Initialize w (mkFireSpreadSimulation w) tiles).burningTiles := by
    rw [hBT]
    exact hstart
  have hfin := RunUpdates_water w c hc hm n rngs
    (Initialize w (mkFireSpreadSimulation w) tiles) hrng hinv0 hmem0 hB0 hH0 hC0
  exact ⟨hfin.1, hfin.2.1, hfin.2.2.1, hfin.2.2.2, hfin.2.2.2 _⟩

/-- Witness for the amended C2 theorem at a concrete input: the 1×2 world
with water at `(0, 1)`, ignited at `(0, 0)`, all draws `1/2`, two updates. -/
theorem c2_water_never_ignites_amended_witness :
    (InBounds exWorld (0, 1) ∧ (exWorld.tile 0 1).moisture = 100 ∧
      [((0 : ℕ), (0 : ℕ))].Nodup ∧ (∀ t ∈ [((0 : ℕ), (0 : ℕ))], InBounds exWorld t) ∧
      ((0 : ℕ), (1 : ℕ)) ∉ [((0 : ℕ), (0 : ℕ))] ∧
      (∀ i k : ℕ, (1 : ℚ) / 2 ^ 101 ≤ (fun _ _ => (1 : ℚ) / 2) i k)) ∧
    (((0 : ℕ), (1 : ℕ)) ∉ (RunUpdates exWorld (fun _ _ => 1 / 2) 2
        (Initialize exWorld (mkFireSpreadSimulation exWorld) [(0, 0)])).burningTiles ∧
      getB (RunUpdates exWorld (fun _ _ => 1 / 2) 2
        (Initialize exWorld (mkFireSpreadSimulation exWorld) [(0, 0)])).isBurning
        (GetTileIndex exWorld (0, 1)) = false ∧
      getB (RunUpdates exWorld (fun _ _ => 1 / 2) 2
        (Initialize exWorld (mkFireSpreadSimulation exWorld) [(0, 0)])).hasBurned
        (GetTileIndex exWorld (0, 1)) = false ∧
      (∀ t, ((0 : ℕ), (1 : ℕ)) ∉ (RunUpdates exWorld (fun _ _ => 1 / 2) 2
        (Initialize exWorld (mkFireSpreadSimulation exWorld) [(0, 0)])).changesOverTime t) ∧
      ((0 : ℕ), (1 : ℕ)) ∉ GetLastChangedTiles (RunUpdates exWorld (fun _ _ => 1 / 2) 2
        (Initialize exWorld (mkFireSpreadSimulation exWorld) [(0, 0)]))) :=
  ⟨⟨by decide, by decide, by decide, by decide, by decide, fun _ _ => by norm_num⟩,
    c2_water_never_ignites_amended exWorld [(0, 0)] (fun _ _ => 1 / 2) (0, 1) 2
      (by decide) (by decide) (by decide) (by decide) (by decide)
      (fun _ _ => by norm_num)⟩

/-! ## Claim C5 -/

/-- Claim C5: each `Update()` advances the clock by exactly one; the new
burning set is exactly the union of the neighbors newly ignited this step
(not burning before, burning after) and the tiles of the old burning set
still burning after their `burningFor` increment (not burned out); only
tiles that are neither burning nor already burned are eligible for ignition
(burned tiles stay burned and non-burning); and a burning tile transitions
to Burned exactly in the step in which its incremented `burningFor` reaches
its `burnTime`. -/
theorem c5_update_step (w : World) (rng : ℕ → ℚ) (s : SimState) (hinv : SimInv w s) :
    (Update w rng s).currentTime = s.currentTime + 1 ∧
    (∀ x < w.width, ∀ y < w.depth,
      ((x, y) ∈ (Update w rng s).burningTiles ↔
        (getB s.isBurning (GetTileIndex w (x, y)) = false ∧
          getB (Update w rng s).isBurning (GetTileIndex w (x, y)) = true) ∨
        ((x, y) ∈ s.burningTiles ∧
          getB (Update w rng s).hasBurned (GetTileIndex w (x, y)) = false))) ∧
    (∀ c ∈ s.burningTiles,
      (getB (Update w rng s).hasBurned (GetTileIndex w c) = true ↔
        getI s.burnTime (GetTileIndex w c) ≤ getI s.burningFor (GetTileIndex w c) + 1)) ∧
    (∀ i < w.width * w.depth, getB s.hasBurned i = true →
      getB (Update w rng s).hasBurned i = true ∧
      getB (Update w rng s).isBurning i = false) := by
  obtain ⟨hinv', hCT, _, _, _, _, hMemIff, hPerC, _, hHmono⟩ := Update_inv w rng s hinv
  refine ⟨hCT, ?_, fun c hc => (hPerC c hc).1, ?_⟩
  · intro x hx y hy
    constructor
    · intro hmem
      have hflag' := (hMemIff x hx y hy).mp hmem
      cases hflag : getB s.isBurning (GetTileIndex w (x, y)) with
      | false => exact Or.inl ⟨rfl, hflag'⟩
      | true =>
        have hcmem : (x, y) ∈ s.burningTiles := by
          by_contra hnot
          have := hinv.not_burning x hx y hy hnot
          exact absurd (hflag.symm.trans this) (by simp)
        refine Or.inr ⟨hcmem, ?_⟩
        cases hbu : getB (Update w rng s).hasBurned (GetTileIndex w (x, y)) with
        | false => rfl
        | true =>
          have := hinv'.burned_not_burning _ (GetTileIndex_lt ⟨hx, hy⟩) hbu
          exact absurd (hflag'.symm.trans this) (by simp)
    · intro hcase
      rcases hcase with ⟨_, hb'⟩ | ⟨hcmem, hnburn'⟩
      · exact (hMemIff x hx y hy).mpr hb'
      · refine ((hPerC (x, y) hcmem).2).mpr ?_
        have hiff := (hPerC (x, y) hcmem).1
        by_contra hnot
        have : getI s.burnTime (GetTileIndex w (x, y)) ≤
            getI s.burningFor (GetTileIndex w (x, y)) + 1 := by omega
        exact absurd ((hiff.mpr this).symm.trans hnburn') (by simp)
  · intro i hi hbu
    have hbu' := hHmono i hbu
    exact ⟨hbu', hinv'.burned_not_burning i hi hbu'⟩

/-- Witness for the C5 theorem at a concrete input: the 1×1 grass world
with its tile ignited. -/
theorem c5_update_step_witness :
    SimInv exWorld1 (Initialize exWorld1 (mkFireSpreadSimulation exWorld1) [(0, 0)]) ∧
    ((Update exWorld1 (fun _ => 1)
        (Initialize exWorld1 (mkFireSpreadSimulation exWorld1) [(0, 0)])).currentTime =
      (Initialize exWorld1 (mkFireSpreadSimulation exWorld1) [(0, 0)]).currentTime + 1 ∧
    (∀ x < exWorld1.width, ∀ y < exWorld1.depth,
      ((x, y) ∈ (Update exWorld1 (fun _ => 1)
          (Initialize exWorld1 (mkFireSpreadSimulation exWorld1) [(0, 0)])).burningTiles ↔
        (getB (Initialize exWorld1 (mkFireSpreadSimulation exWorld1) [(0, 0)]).isBurning
            (GetTileIndex exWorld1 (x, y)) = false ∧
          getB (Update exWorld1 (fun _ => 1)
            (Initialize exWorld1 (mkFireSpreadSimulation exWorld1) [(0, 0)])).isBurning
            (GetTileIndex exWorld1 (x, y)) = true) ∨
        ((x, y) ∈ (Initialize exWorld1 (mkFireSpreadSimulation exWorld1) [(0, 0)]).burningTiles ∧
          getB (Update exWorld1 (fun _ => 1)
            (Initialize exWorld1 (mkFireSpreadSimulation exWorld1) [(0, 0)])).hasBurned
            (GetTileIndex exWorld1 (x, y)) = false))) ∧
    (∀ c ∈ (Initialize exWorld1 (mkFireSpreadSimulation exWorld1) [(0, 0)]).burningTiles,
      (getB (Update exWorld1 (fun _ => 1)
          (Initialize exWorld1 (mkFireSpreadSimulation exWorld1) [(0, 0)])).hasBurned
          (GetTileIndex exWorld1 c) = true ↔
        getI (Initialize exWorld1 (mkFireSpreadSimulation exWorld1) [(0, 0)]).burnTime
          (GetTileIndex exWorld1 c) ≤
        getI (Initialize exWorld1 (mkFireSpreadSimulation exWorld1) [(0, 0)]).burningFor
          (GetTileIndex exWorld1 c) + 1)) ∧
    (∀ i < exWorld1.width * exWorld1.depth,
      getB (Initialize exWorld1 (mkFireSpreadSimulation exWorld1) [(0, 0)]).hasBurned i = true →
      getB (Update exWorld1 (fun _ => 1)
        (Initialize exWorld1 (mkFireSpreadSimulation exWorld1) [(0, 0)])).hasBurned i = true ∧
      getB (Update exWorld1 (fun _ => 1)
        (Initialize exWorld1 (mkFireSpreadSimulation exWorld1) [(0, 0)])).isBurning i = false)) :=
  ⟨SimInv_initial exWorld1 [(0, 0)] (by decide) (by decide),
    c5_update_step exWorld1 (fun _ => 1)
      (Initialize exWorld1 (mkFireSpreadSimulation exWorld1) [(0, 0)])
      (SimInv_initial exWorld1 [(0, 0)] (by decide) (by decide))⟩

/-! ## Claim C6 -/

/-- Claim C6: for a square world and a non-empty duplicate-free in-bounds
ignition set not consisting entirely of prohibited (moisture-100) tiles,
and for every family of random draw sequences, `HasEnded()` is true after
at most `totalBurnTime` (the sum of all tiles' `burnTime` entries) calls to
`Update()`, and every later `Update()` leaves `HasEnded()` true and changes
no tile's fire state (`isBurning`, `hasBurned`, `burningFor`). -/
theorem c6_termination (w : World) (tiles : List (ℕ × ℕ)) (rngs : ℕ → ℕ → ℚ)
    (hsq : w.width = w.depth) (hne : tiles ≠ []) (hnodup : tiles.Nodup)
    (hbounds : ∀ c ∈ tiles, InBounds w c)
    (hnotall : ¬ ∀ c ∈ tiles, (w.tile c.1 c.2).moisture = 100) :
    HasEnded (RunUpdates w rngs
      (totalBurnTime (Initialize w (mkFireSpreadSimulation w) tiles))
      (Initialize w (mkFireSpreadSimulation w) tiles)) = true ∧
    ∀ m, totalBurnTime (Initialize w (mkFireSpreadSimulation w) tiles) ≤ m →
      HasEnded (RunUpdates w rngs m (Initialize w (mkFireSpreadSimulation w) tiles)) = true ∧
      (RunUpdates w rngs m (Initialize w (mkFireSpreadSimulation w) tiles)).isBurning =
        (RunUpdates w rngs (totalBurnTime (Initialize w (mkFireSpreadSimulation w) tiles))
          (Initialize w (mkFireSpreadSimulation w) tiles)).isBurning ∧
      (RunUpdates w rngs m (Initialize w (mkFireSpreadSimulation w) tiles)).hasBurned =
        (RunUpdates w rngs (totalBurnTime (Initialize w (mkFireSpreadSimulation w) tiles))
          (Initialize w (mkFireSpreadSimulation w) tiles)).hasBurned ∧
      (RunUpdates w rngs m (Initialize w (mkFireSpreadSimulation w) tiles)).burningFor =
        (RunUpdates w rngs (totalBurnTime (Initialize w (mkFireSpreadSimulation w) tiles))
          (Initialize w (mkFireSpreadSimulation w) tiles)).burningFor := by
  have hinv0 := SimInv_initial w tiles hnodup hbounds
  have hMeas : fireMeasure w (Initialize w (mkFireSpreadSimulation w) tiles) ≤
      (totalBurnTime (Initialize w (mkFireSpreadSimulation w) tiles) : ℤ) :=
    le_of_eq (fireMeasure_initial w tiles)
  have hrun := run_ends w (totalBurnTime (Initialize w (mkFireSpreadSimulation w) tiles))
    rngs (Initialize w (mkFireSpreadSimulation w) tiles) hinv0 hMeas
  constructor
  · show (RunUpdates w rngs _ _).burningTiles.isEmpty = true
    rw [hrun.1]
    rfl
  · intro m hm
    have hmeq : m = totalBurnTime (Initialize w (mkFireSpreadSimulation w) tiles) +
        (m - totalBurnTime (Initialize w (mkFireSpreadSimulation w) tiles)) := by omega
    rw [hmeq, RunUpdates_add]
    have he := RunUpdates_ended w
      (m - totalBurnTime (Initialize w (mkFireSpreadSimulation w) tiles))
      (fun i => rngs (i + totalBurnTime (Initialize w (mkFireSpreadSimulation w) tiles)))
      (RunUpdates w rngs (totalBurnTime (Initialize w (mkFireSpreadSimulation w) tiles))
        (Initialize w (mkFireSpreadSimulation w) tiles)) hrun.1
    refine ⟨?_, he.2.1, he.2.2.1, he.2.2.2⟩
    show (RunUpdates w _ _ _).burningTiles.isEmpty = true
    rw [he.1]
    rfl

/-- Witness for the C6 theorem at a concrete input: the 1×1 grass world
ignited at its only tile, with the all-zero draw family. -/
theorem c6_termination_witness :
    (exWorld1.width = exWorld1.depth ∧ [((0 : ℕ), (0 : ℕ))] ≠ [] ∧
      [((0 : ℕ), (0 : ℕ))].Nodup ∧ (∀ c ∈ [((0 : ℕ), (0 : ℕ))], InBounds exWorld1 c) ∧
      ¬ ∀ c ∈ [((0 : ℕ), (0 : ℕ))], (exWorld1.tile c.1 c.2).moisture = 100) ∧
    (HasEnded (RunUpdates exWorld1 (fun _ _ => 0)
      (totalBurnTime (Initialize exWorld1 (mkFireSpreadSimulation exWorld1) [(0, 0)]))
      (Initialize exWorld1 (mkFireSpreadSimulation exWorld1) [(0, 0)])) = true ∧
    ∀ m, totalBurnTime (Initialize exWorld1 (mkFireSpreadSimulation exWorld1) [(0, 0)]) ≤ m →
      HasEnded (RunUpdates exWorld1 (fun _ _ => 0) m
        (Initialize exWorld1 (mkFireSpreadSimulation exWorld1) [(0, 0)])) = true ∧
      (RunUpdates exWorld1 (fun _ _ => 0) m
        (Initialize exWorld1 (mkFireSpreadSimulation exWorld1) [(0, 0)])).isBurning =
        (RunUpdates exWorld1 (fun _ _ => 0)
          (totalBurnTime (Initialize exWorld1 (mkFireSpreadSimulation exWorld1) [(0, 0)]))
          (Initialize exWorld1 (mkFireSpreadSimulation exWorld1) [(0, 0)])).isBurning ∧
      (RunUpdates exWorld1 (fun _ _ => 0) m
        (Initialize exWorld1 (mkFireSpreadSimulation exWorld1) [(0, 0)])).hasBurned =
        (RunUpdates exWorld1 (fun _ _ => 0)
          (totalBurnTime (Initialize exWorld1 (mkFireSpreadSimulation exWorld1) [(0, 0)]))
          (Initialize exWorld1 (mkFireSpreadSimulation exWorld1) [(0, 0)])).hasBurned ∧
      (RunUpdates exWorld1 (fun _ _ => 0) m
        (Initialize exWorld1 (mkFireSpreadSimulation exWorld1) [(0, 0)])).burningFor =
        (RunUpdates exWorld1 (fun _ _ => 0)
          (totalBurnTime (Initialize exWorld1 (mkFireSpreadSimulation exWorld1) [(0, 0)]))
          (Initialize exWorld1 (mkFireSpreadSimulation exWorld1) [(0, 0)])).burningFor) :=
  ⟨⟨rfl, by decide, by decide, by decide, by decide⟩,
    c6_termination exWorld1 [(0, 0)] (fun _ _ => 0) rfl (by decide) (by decide)
      (by decide) (by decide)⟩

/-! ## Claim C9 -/

/-- Moisture values of every cell (in or out of bounds) lie in `[0, 100]`. -/
def MoistureInRange (m : MapInt) : Prop :=
  ∀ a b : ℕ, 0 ≤ m.GetData a b ∧ m.GetData a b ≤ 100

theorem MoistureInRange_SetData {m : MapInt} (hm : MoistureInRange m)
    {x y : ℕ} {v : ℤ} (hv : 0 ≤ v ∧ v ≤ 100) : MoistureInRange (m.SetData x y v) := by
  intro a b
  unfold MapInt.SetData
  by_cases hb : x < m.width ∧ y < m.depth
  · rw [if_pos hb]
    show 0 ≤ MapInt.GetData _ a b ∧ MapInt.GetData _ a b ≤ 100
    unfold MapInt.GetData
    dsimp only
    by_cases hin : a < m.width ∧ b < m.depth
    · rw [if_pos hin]
      by_cases heq : a = x ∧ b = y
      · rw [if_pos heq]
        exact hv
      · rw [if_neg heq]
        have h := hm a b
        unfold MapInt.GetData at h
        rwa [if_pos hin] at h
    · rw [if_neg hin]
      exact ⟨le_refl 0, by norm_num⟩
  · rw [if_neg hb]
    exact hm a b

theorem MoistureInRange_foldl {β : Type} (f : MapInt → β → MapInt)
    (hf : ∀ m b, MoistureInRange m → MoistureInRange (f m b)) :
    ∀ (l : List β) (m : MapInt), MoistureInRange m → MoistureInRange (l.foldl f m)
  | [], _, h => h
  | b :: l, m, h => MoistureInRange_foldl f hf l (f m b) (hf m b h)

theorem MoistureInRange_SpreadMoisture (x y : ℕ) {m : MapInt}
    (hm : MoistureInRange m) : MoistureInRange (SpreadMoisture x y m) := by
  unfold SpreadMoisture
  refine MoistureInRange_foldl _ ?_ _ m hm
  intro m' d hm'
  dsimp only
  by_cases hb : 0 ≤ (x : ℤ) + ((d.1 : ℤ) - 2) ∧ (x : ℤ) + ((d.1 : ℤ) - 2) < (m'.width : ℤ) ∧
      0 ≤ (y : ℤ) + ((d.2 : ℤ) - 2) ∧ (y : ℤ) + ((d.2 : ℤ) - 2) < (m'.depth : ℤ)
  · rw [if_pos hb]
    by_cases hdist : |(d.1 : ℤ) - 2| + |(d.2 : ℤ) - 2| ≤ 2
    · rw [if_pos hdist]
      refine MoistureInRange_SetData hm' ⟨?_, min_le_right _ _⟩
      have hg := hm' (((x : ℤ) + ((d.1 : ℤ) - 2)).toNat) (((y : ℤ) + ((d.2 : ℤ) - 2)).toNat)
      have habs : (0 : ℤ) ≤ |(d.1 : ℤ) - 2| + |(d.2 : ℤ) - 2| :=
        add_nonneg (abs_nonneg _) (abs_nonneg _)
      refine le_min (add_nonneg hg.1 ?_) (by norm_num)
      omega
    · rw [if_neg hdist]
      exact hm'
  · rw [if_neg hb]
    exact hm'

theorem MoistureInRange_MoistureGenerate (width depth : ℕ)
    (lakeMap riverMap : ℕ → ℕ → Bool) (noise : ℚ → ℚ → ℚ) (offsetX offsetY : ℚ) :
    MoistureInRange (MoistureGenerate width depth lakeMap riverMap noise offsetX offsetY) := by
  unfold MoistureGenerate
  refine MoistureInRange_foldl _ ?_ _ _ ?_
  · intro m c hm
    dsimp only
    by_cases hw : lakeMap c.1 c.2 || riverMap c.1 c.2
    · rw [if_pos hw]
      exact MoistureInRange_SpreadMoisture _ _ (MoistureInRange_SetData hm (by norm_num))
    · rw [if_neg hw]
      refine MoistureInRange_SetData hm ⟨?_, ?_⟩
      · exact Int.floor_nonneg.mpr (le_max_left 0 _)
      · have h100 : max 0 (min ((noise (((c.1 : ℚ) + offsetX) / 10) (((c.2 : ℚ) + offsetY) / 10) + 1) / 2 * 100) 100) ≤ (100 : ℚ) :=
          max_le (by norm_num) (min_le_right _ _)
        calc ⌊max 0 (min ((noise (((c.1 : ℚ) + offsetX) / 10) (((c.2 : ℚ) + offsetY) / 10) + 1) / 2 * 100) 100)⌋
            ≤ ⌊(100 : ℚ)⌋ := Int.floor_le_floor h100
          _ = 100 := by norm_num
  · intro a b
    unfold MapInt.GetData
    dsimp only
    by_cases hin : a < width ∧ b < depth
    · rw [if_pos hin]
      norm_num
    · rw [if_neg hin]
      norm_num

theorem mem_SetProhibitedTiles (w : World) (x y : ℕ) (hx : x < w.width)
    (hy : y < w.depth) (hm : (w.tile x y).moisture = 100) :
    (x, y) ∈ SetProhibitedTiles w := by
  unfold SetProhibitedTiles
  refine List.mem_flatMap.mpr ⟨x, List.mem_range.mpr hx, ?_⟩
  refine List.mem_filterMap.mpr ⟨y, List.mem_range.mpr hy, ?_⟩
  rw [if_pos hm]

/-- Claim C9: every cell of a generated moisture map lies in `[0, 100]`
(for an arbitrary noise oracle, lake mask and river mask), and in the world
assembled from that map every tile with moisture 100 appears in the
prohibited list computed by the `FireSpreadSimulation` constructor (the
result of `GetProhibitedTiles()`).  The square-world hypothesis reflects
the application's configuration requirement (`TilesOnSide`). -/
theorem c9_moisture_bounds_and_prohibited (width depth : ℕ)
    (lakeMap riverMap : ℕ → ℕ → Bool) (noise : ℚ → ℚ → ℚ) (offsetX offsetY : ℚ)
    (heightMap : ℕ → ℕ → ℚ) (vegetationMap : ℕ → ℕ → VegetationType)
    (hsq : width = depth) (x y : ℕ) (hx : x < width) (hy : y < depth) :
    (0 ≤ (MoistureGenerate width depth lakeMap riverMap noise offsetX offsetY).GetData x y ∧
      (MoistureGenerate width depth lakeMap riverMap noise offsetX offsetY).GetData x y ≤ 100) ∧
    ((MoistureGenerate width depth lakeMap riverMap noise offsetX offsetY).GetData x y = 100 →
      (x, y) ∈ (mkFireSpreadSimulation (GenerateWorldFromMaps width depth heightMap
        (MoistureGenerate width depth lakeMap riverMap noise offsetX offsetY)
        vegetationMap)).prohibitedTiles) := by
  refine ⟨MoistureInRange_MoistureGenerate width depth lakeMap riverMap noise offsetX offsetY x y,
    fun h100 => ?_⟩
  show (x, y) ∈ SetProhibitedTiles (GenerateWorldFromMaps width depth heightMap _ vegetationMap)
  exact mem_SetProhibitedTiles _ x y hx hy h100

/-- Witness for the C9 theorem at a concrete input: a 1×1 all-lake world. -/
theorem c9_moisture_bounds_and_prohibited_witness :
    ((1 : ℕ) = 1 ∧ (0 : ℕ) < 1 ∧ (0 : ℕ) < 1) ∧
    ((0 ≤ (MoistureGenerate 1 1 (fun _ _ => true) (fun _ _ => false) (fun _ _ => 0) 0 0).GetData 0 0 ∧
      (MoistureGenerate 1 1 (fun _ _ => true) (fun _ _ => false) (fun _ _ => 0) 0 0).GetData 0 0 ≤ 100) ∧
    ((MoistureGenerate 1 1 (fun _ _ => true) (fun _ _ => false) (fun _ _ => 0) 0 0).GetData 0 0 = 100 →
      (0, 0) ∈ (mkFireSpreadSimulation (GenerateWorldFromMaps 1 1 (fun _ _ => 0)
        (MoistureGenerate 1 1 (fun _ _ => true) (fun _ _ => false) (fun _ _ => 0) 0 0)
        (fun _ _ => VegetationType.Grass))).prohibitedTiles)) :=
  ⟨⟨rfl, Nat.one_pos, Nat.one_pos⟩,
    c9_moisture_bounds_and_prohibited 1 1 (fun _ _ => true) (fun _ _ => false)
      (fun _ _ => 0) 0 0 (fun _ _ => 0) (fun _ _ => VegetationType.Grass) rfl 0 0
      Nat.one_pos Nat.one_pos⟩

